import Mathlib

/-!
Verification development for the document classification-and-retrieval
engine: a shallow embedding of `classifier.py`, `metadata_extractor.py`,
`analyzer.py` and `qa_system.py`, with theorems settling the spec claims.

Texts are modelled as lists of characters (`Str`); Python string slices,
splits and case folding are embedded as executable functions below.
-/

/-- Character lists model Python strings (one entry per code point). -/
abbrev Str := List Char

/-- Coerce a Lean string literal to the `Str` model. -/
def str (s : String) : Str := s.data

/-- Python `str`-whitespace on the ASCII range (the only whitespace
characters occurring in this development), by code point:
space, tab, newline, carriage return, vertical tab, form feed. -/
def isSpaceA (c : Char) : Bool :=
  c.toNat = 32 ∨ c.toNat = 9 ∨ c.toNat = 10 ∨ c.toNat = 13 ∨ c.toNat = 11 ∨ c.toNat = 12

/-- Python `str.lower` restricted to ASCII letters and the Vietnamese
(Latin-1 / Latin Extended-A / Latin Extended Additional) uppercase
letters, which are the only cased characters appearing in the sources
and in the inputs considered here. -/
def lowerChar (c : Char) : Char :=
  let n := c.toNat
  if 0x41 ≤ n ∧ n ≤ 0x5A then Char.ofNat (n + 0x20)
  else if 0xC0 ≤ n ∧ n ≤ 0xDE ∧ n ≠ 0xD7 then Char.ofNat (n + 0x20)
  else if n = 0x102 ∨ n = 0x110 ∨ n = 0x128 ∨ n = 0x168 ∨ n = 0x1A0 ∨ n = 0x1AF then
    Char.ofNat (n + 1)
  else if 0x1EA0 ≤ n ∧ n ≤ 0x1EF8 ∧ n % 2 = 0 then Char.ofNat (n + 1)
  else c

/-- Python `str.lower` over a whole string. -/
def pyLower (s : Str) : Str := s.map lowerChar

/-- Python `str.strip()`: drop whitespace from both ends. -/
def pyStrip (s : Str) : Str :=
  ((s.dropWhile isSpaceA).reverse.dropWhile isSpaceA).reverse

/-- Python `str.split('\n')`: split at every newline, keeping empty pieces. -/
def splitNl (s : Str) : List Str := s.splitOn '\n'

/-- Fuelled scan for `splitWS`. -/
def splitWSFuel : Nat → Str → List Str
  | 0, _ => []
  | _ + 1, [] => []
  | fuel + 1, c :: t =>
    if isSpaceA c then splitWSFuel fuel t
    else
      (c :: t).takeWhile (fun d => ¬isSpaceA d) ::
        splitWSFuel fuel ((c :: t).dropWhile (fun d => ¬isSpaceA d))

/-- Python `str.split()` (no argument): maximal runs of non-whitespace. -/
def splitWS (s : Str) : List Str := splitWSFuel s.length s

/-- Python substring containment `p in s`. -/
def isSubstr (p s : Str) : Bool := s.tails.any (fun t => p.isPrefixOf t)

/-- Fuel-driven scan for `countOcc`; the fuel is an upper bound on the
length of the scanned suffix. -/
def countOccFuel (p : Str) : Nat → Str → Nat
  | 0, _ => 0
  | _ + 1, [] => 0
  | fuel + 1, c :: t =>
    if p.isPrefixOf (c :: t) then 1 + countOccFuel p fuel ((c :: t).drop p.length)
    else countOccFuel p fuel t

/-- Number of non-overlapping, leftmost occurrences of `p` in `s`:
the semantics of Python `len(re.findall(re.escape(p), s))` used by the
classifier (for the empty pattern `re.findall` yields `len(s) + 1`
empty matches). -/
def countOcc (p s : Str) : Nat :=
  if p.isEmpty then s.length + 1 else countOccFuel p s.length s

/-- The fixed keyword lists of `DocumentClassifier.KEYWORDS`,
in declaration order. -/
def KEYWORDS : List (Str × List Str) :=
  [ (str "metro",
     [str "metro", str "đường sắt đô thị", str "tuyến metro", str "tuyến đường sắt",
      str "depot", str "nhà ga", str "RAMS", str "FEED", str "Pre-FS", str "FS",
      str "khảo sát", str "thiết kế metro", str "vận hành metro", str "TOD",
      str "transit-oriented", str "hạ tầng giao thông", str "đường ray",
      str "đoàn tàu", str "tàu điện", str "MRT", str "urban rail", str "mass transit"]),
    (str "dau_thau",
     [str "đấu thầu", str "mời thầu", str "hồ sơ dự thầu", str "đề xuất kỹ thuật",
      str "đề xuất tài chính", str "nhà thầu", str "đấu thầu rộng rãi",
      str "đàm phán cạnh tranh", str "khu giáo dục", str "đường Thống Nhất",
      str "Suối Cây Sao", str "TOD4", str "quy hoạch", str "đầu tư", str "dự án",
      str "thuyết minh dự án", str "hồ sơ mời thầu", str "PPP", str "BT", str "BOT"]),
    (str "chung_cu",
     [str "chung cư", str "căn hộ", str "apartment", str "condominium",
      str "nhà ở cao tầng", str "dự án chung cư", str "bán nhà", str "mua nhà",
      str "sổ đỏ chung cư", str "pháp lý chung cư", str "thiết kế chung cư",
      str "xây dựng chung cư", str "kinh doanh bất động sản", str "bán hàng chung cư"]),
    (str "nha_o_xa_hoi",
     [str "nhà ở xã hội", str "NOXH", str "nhà ở công nhân",
      str "nhà ở cho người thu nhập thấp", str "chính sách nhà ở xã hội",
      str "ưu đãi nhà ở", str "an sinh xã hội", str "dự án an sinh",
      str "nhà ở cho người nghèo", str "social housing"]) ]

/-- `DocumentClassifier.FOLDER_MAPPING`. -/
def FOLDER_MAPPING : List (Str × Str) :=
  [ (str "metro", str "Metro_DuongSatDoThi"),
    (str "dau_thau", str "DauThau_KhuGiaoDuc_TOD"),
    (str "chung_cu", str "ChungCu"),
    (str "nha_o_xa_hoi", str "NhaO_XaHoi") ]

/-- Association-list lookup with a default: Python `dict.get(k, d)`. -/
def lookupD (l : List (Str × α)) (k : Str) (d : α) : α :=
  match l.find? (fun p => p.1 == k) with
  | some p => p.2
  | none => d

/-- The two keyword loops of `DocumentClassifier.classify` for one group:
first the text loop (adding each keyword's occurrence count and recording
matched keywords), then the filename loop (adding the fixed bonus 2 per
keyword contained in the filename, recording keywords not yet recorded). -/
def groupScoreAndMatches (keywords : List Str) (contentLower filenameLower : Str) :
    Nat × List Str :=
  let first := keywords.foldl
    (fun (acc : Nat × List Str) kw =>
      let c := countOcc (pyLower kw) contentLower
      if 0 < c then (acc.1 + c, acc.2 ++ [kw]) else acc)
    (0, [])
  keywords.foldl
    (fun (acc : Nat × List Str) kw =>
      if isSubstr (pyLower kw) filenameLower then
        (acc.1 + 2, if acc.2.contains kw then acc.2 else acc.2 ++ [kw])
      else acc)
    first

/-- The classifier's `scores` mapping, in group declaration order. -/
def scoresOf (content filename : Str) : List (Str × Nat) :=
  KEYWORDS.map (fun g =>
    (g.1, (groupScoreAndMatches g.2 (pyLower content) (pyLower filename)).1))

/-- The classifier's per-group matched-keyword lists. -/
def matchesOf (content filename : Str) : List (Str × List Str) :=
  KEYWORDS.map (fun g =>
    (g.1, (groupScoreAndMatches g.2 (pyLower content) (pyLower filename)).2))

/-- Stable insertion into a descending-by-key list: the inserted element
goes after every element with a strictly greater key and before every
element with an equal or smaller key. -/
def insertDesc (key : α → Nat) (x : α) : List α → List α
  | [] => [x]
  | y :: t => if key x < key y then y :: insertDesc key x t else x :: y :: t

/-- Stable descending sort by a natural-number key: the semantics of
Python `sorted(l, key, reverse=True)` (equal keys keep list order). -/
def sortByDesc (key : α → Nat) : List α → List α
  | [] => []
  | x :: t => insertDesc key x (sortByDesc key t)

/-- Python `max(scores, key=scores.get)` over an insertion-ordered dict:
the first pair attaining the maximal value (`max` replaces the running
best only on a strictly greater key). -/
def pyMaxPair (l : List (Str × Nat)) : Str × Nat :=
  match l with
  | [] => (str "", 0)
  | p :: t => t.foldl (fun best q => if best.2 < q.2 then q else best) p

/-- One secondary-group entry of the classification result. -/
structure SubGroup where
  group : Str
  folder : Str
  score : Nat
deriving DecidableEq

/-- The dictionary returned by `DocumentClassifier.classify`. -/
structure ClassifyResult where
  main_group : Str
  main_folder : Str
  sub_groups : List SubGroup
  confidence : Str
  scores : List (Str × Nat)
  matched_keywords : List Str
deriving DecidableEq

/-- Decision logic of `DocumentClassifier.classify` on the computed
scores and matches.  The Python float test
`max_score / max(total_score, 1) > 0.6` is embedded as the exact rational
comparison `3 * max(total_score, 1) < 5 * max_score` (the two agree for
every score total below 6·10^15, far beyond any representable document). -/
def buildResult (scores : List (Str × Nat)) (ms : List (Str × List Str)) :
    ClassifyResult :=
  let allZero := scores.all (fun p => p.2 == 0)
  let mg :=
    if allZero then (str "khac", str "Khac", str "thap")
    else
      let mp := pyMaxPair scores
      let total := scores.foldl (fun a p => a + p.2) 0
      let conf :=
        if 5 ≤ mp.2 ∧ 3 * Nat.max total 1 < 5 * mp.2 then str "cao"
        else if 2 ≤ mp.2 then str "trung_binh"
        else str "thap"
      (mp.1, lookupD FOLDER_MAPPING mp.1 (str "Khac"), conf)
  let main_group := mg.1
  let sorted := sortByDesc (fun p => p.2) scores
  let sub := ((sorted.drop 1).take 2).filter
    (fun p => decide (0 < p.2) && decide (p.1 ≠ main_group))
  { main_group := main_group
    main_folder := mg.2.1
    sub_groups := sub.map (fun p =>
      { group := p.1, folder := lookupD FOLDER_MAPPING p.1 (str ""), score := p.2 })
    confidence := mg.2.2
    scores := scores
    matched_keywords :=
      if main_group ≠ str "khac" then lookupD ms main_group [] else [] }

/-- `DocumentClassifier.classify`. -/
def classify (content filename : Str) : ClassifyResult :=
  buildResult (scoresOf content filename) (matchesOf content filename)

/-- Per-keyword score contribution as the spec states it: the number of
case-insensitive occurrences in the text plus a bonus of 2 when the
lowercased keyword occurs in the lowercased filename. -/
def specKeywordScore (kw content filename : Str) : Nat :=
  countOcc (pyLower kw) (pyLower content) +
    (if isSubstr (pyLower kw) (pyLower filename) then 2 else 0)

/-- A `scores` row of the classifier: the four fixed groups in
declaration order with arbitrary score values. -/
def scoreRow (a b c d : Nat) : List (Str × Nat) :=
  [(str "metro", a), (str "dau_thau", b), (str "chung_cu", c), (str "nha_o_xa_hoi", d)]

/-- Maximal score of a classification result. -/
def maxScoreOf (r : ClassifyResult) : Nat :=
  (r.scores.map (fun p => p.2)).foldr Nat.max 0

/-- Total score of a classification result. -/
def totalScoreOf (r : ClassifyResult) : Nat :=
  (r.scores.map (fun p => p.2)).sum

/-- First element attaining the maximal key among `x :: t`, favouring
earlier elements on ties (the spec's tie-break policy). -/
def firstMax1 (key : α → Nat) (x : α) : List α → α
  | [] => x
  | y :: t => let m := firstMax1 key y t; if key x < key m then m else x

/-- First score entry whose value reaches `M`: the spec's description of
`main_group` as the earliest declared group attaining the maximal score. -/
def firstMaxEntry (M : Nat) : List (Str × Nat) → Option (Str × Nat)
  | [] => none
  | p :: t => if M ≤ p.2 then some p else firstMaxEntry M t

/-! ### A small backtracking matcher for the fixed regular expressions of
the sources.  A `Matcher` returns, in backtracking priority order, the
possible (consumed text, captured groups, remaining text) triples at the
start of the input; greedy quantifiers yield longer alternatives first,
exactly as Python `re` explores them. -/

/-- Captured groups of one regex match, in opening-paren order. -/
abbrev MGroups := List Str

/-- Matchers over the `Str` model. -/
abbrev Matcher := Str → List (Str × MGroups × Str)

/-- Case-insensitive literal (every source pattern is compiled with
`re.IGNORECASE`). -/
def mlit (pat : Str) : Matcher := fun s =>
  if (pyLower pat).isPrefixOf (pyLower s) then
    [(s.take pat.length, [], s.drop pat.length)] else []

/-- Sequencing: all alternatives of the first matcher, then the second. -/
def mseq (m1 m2 : Matcher) : Matcher := fun s =>
  (m1 s).flatMap (fun a =>
    (m2 a.2.2).map (fun b => (a.1 ++ b.1, a.2.1 ++ b.2.1, b.2.2)))

/-- Alternation: the left branch has priority (Python `|`). -/
def malt (m1 m2 : Matcher) : Matcher := fun s => m1 s ++ m2 s

/-- Greedy character-class repetition (`[..]*` or `[..]+`): alternatives
from the longest run down to the minimum length. -/
def mclass (p : Char → Bool) (atLeastOne : Bool) : Matcher := fun s =>
  let run := (s.takeWhile p).length
  let lo := if atLeastOne then 1 else 0
  (List.range (run + 1)).reverse.filterMap (fun k =>
    if lo ≤ k then some (s.take k, [], s.drop k) else none)

/-- Exactly `n` characters of a class (`\d{4}`). -/
def mexact (p : Char → Bool) (n : Nat) : Matcher := fun s =>
  if n ≤ (s.takeWhile p).length then [(s.take n, [], s.drop n)] else []

/-- A single character of a class. -/
def mclassOne (p : Char → Bool) : Matcher := fun s =>
  match s with
  | [] => []
  | c :: t => if p c then [([c], [], t)] else []

/-- Greedy `\d{1,2}`: two digits first, then one. -/
def mdigits12 : Matcher := fun s =>
  let run := (s.takeWhile (fun c => '0' ≤ c ∧ c ≤ '9')).length
  if 2 ≤ run then [(s.take 2, [], s.drop 2), (s.take 1, [], s.drop 1)]
  else if 1 ≤ run then [(s.take 1, [], s.drop 1)]
  else []

/-- ASCII digit (the `\d` class on the inputs considered here). -/
def isDigitA (c : Char) : Bool := '0' ≤ c ∧ c ≤ '9'

/-- Capture group: wraps a matcher and records its consumed text. -/
def mgroup (m : Matcher) : Matcher := fun s =>
  (m s).map (fun a => (a.1, a.2.1 ++ [a.1], a.2.2))

/-- Fold a nonempty list of matchers in sequence. -/
def mseqs : List Matcher → Matcher
  | [] => fun s => [([], [], s)]
  | [m] => m
  | m :: ms => mseq m (mseqs ms)

/-- Leftmost search (`re.search`): the earliest start position wins, and at
that position the first alternative in backtracking order. -/
def reSearch (m : Matcher) (s : Str) : Option (Str × MGroups) :=
  match m s with
  | a :: _ => some (a.1, a.2.1)
  | [] =>
    match s with
    | [] => none
    | _ :: t => reSearch m t

/-- Fuelled scan for `reFindAll`. -/
def reFindAllFuel (m : Matcher) : Nat → Str → List MGroups
  | 0, _ => []
  | fuel + 1, s =>
    match m s with
    | a :: _ =>
      let g := if a.2.1.isEmpty then [a.1] else a.2.1
      if a.1.isEmpty then
        match s with
        | [] => [g]
        | _ :: t => g :: reFindAllFuel m fuel t
      else g :: reFindAllFuel m fuel a.2.2
    | [] =>
      match s with
      | [] => []
      | _ :: t => reFindAllFuel m fuel t

/-- Python `re.findall`: non-overlapping leftmost matches, each reported as
its group list (or the whole match when the pattern has no group). -/
def reFindAll (m : Matcher) (s : Str) : List MGroups :=
  reFindAllFuel m (s.length + 1) s

/-- The group of a single-group match. -/
def group1 : MGroups → Option Str
  | [g] => some g
  | _ => none

/-! ### Metadata extractor (`metadata_extractor.py`): issue date -/

/-- `[sep]` separator of the numeric date patterns. -/
def msep : Matcher := mclassOne (fun c => c = '/' ∨ c = '-')

/-- `(?:ban\s+hành|ngày)` anchor of the priority date patterns. -/
def manchor : Matcher :=
  malt (mseqs [mlit (str "ban"), mclass isSpaceA true, mlit (str "hành")])
       (mlit (str "ngày"))

/-- Priority pattern 1: `(?:ban\s+hành|ngày)\s+(\d{1,2})[sep](\d{1,2})[sep](\d{4})`. -/
def priorityDate1 : Matcher :=
  mseqs [manchor, mclass isSpaceA true, mgroup mdigits12, msep,
         mgroup mdigits12, msep, mgroup (mexact isDigitA 4)]

/-- Priority pattern 2:
`(?:ban\s+hành|ngày)\s+(\d{1,2})\s+tháng\s+(\d{1,2})\s+năm\s+(\d{4})`. -/
def priorityDate2 : Matcher :=
  mseqs [manchor, mclass isSpaceA true, mgroup mdigits12,
         mclass isSpaceA true, mlit (str "tháng"), mclass isSpaceA true,
         mgroup mdigits12, mclass isSpaceA true, mlit (str "năm"),
         mclass isSpaceA true, mgroup (mexact isDigitA 4)]

/-- Bare pattern `(\d{1,2})[sep](\d{1,2})[sep](\d{4})`. -/
def bareDate1 : Matcher :=
  mseqs [mgroup mdigits12, msep, mgroup mdigits12, msep, mgroup (mexact isDigitA 4)]

/-- Bare pattern `(\d{4})[sep](\d{1,2})[sep](\d{1,2})`. -/
def bareDate2 : Matcher :=
  mseqs [mgroup (mexact isDigitA 4), msep, mgroup mdigits12, msep, mgroup mdigits12]

/-- Bare pattern `(\d{1,2})\s+tháng\s+(\d{1,2})\s+năm\s+(\d{4})`. -/
def bareDate3 : Matcher :=
  mseqs [mgroup mdigits12, mclass isSpaceA true, mlit (str "tháng"),
         mclass isSpaceA true, mgroup mdigits12, mclass isSpaceA true,
         mlit (str "năm"), mclass isSpaceA true, mgroup (mexact isDigitA 4)]

/-- Bare pattern `ngày\s+(\d{1,2})\s+tháng\s+(\d{1,2})\s+năm\s+(\d{4})`. -/
def bareDate4 : Matcher := mseq (mseq (mlit (str "ngày")) (mclass isSpaceA true)) bareDate3

/-- The two priority date patterns in declaration order. -/
def priorityDatePatterns : List Matcher := [priorityDate1, priorityDate2]

/-- The four bare date patterns in declaration order. -/
def bareDatePatterns : List Matcher := [bareDate1, bareDate2, bareDate3, bareDate4]

/-- Python `str.zfill(2)`: pad on the left with `0` to width two. -/
def zfill2 (s : Str) : Str := List.replicate (2 - s.length) '0' ++ s

/-- `f"{day.zfill(2)}/{month.zfill(2)}/{year}"`. -/
def fmtDate (d m y : Str) : Str := zfill2 d ++ ['/'] ++ zfill2 m ++ ['/'] ++ y

/-- The priority-pattern loop of `_extract_issue_date`: first pattern whose
first match has a four-character third group wins. -/
def priorityDateLoop : List Matcher → Str → Option Str
  | [], _ => none
  | m :: ms, s =>
    match reFindAll m s with
    | [] => priorityDateLoop ms s
    | g :: _ =>
      match g with
      | [d, mo, y] => if y.length = 4 then some (fmtDate d mo y) else priorityDateLoop ms s
      | _ => priorityDateLoop ms s

/-- The bare-pattern loop of `_extract_issue_date`: the first pattern with
any match returns, using the position of the four-digit year to pick the
day/month/year order. -/
def bareDateLoop : List Matcher → Str → Option Str
  | [], _ => none
  | m :: ms, s =>
    match reFindAll m s with
    | [] => bareDateLoop ms s
    | g :: _ =>
      match g with
      | [x, y, z] => if z.length = 4 then some (fmtDate x y z) else some (fmtDate z y x)
      | _ => bareDateLoop ms s

/-- `MetadataExtractor._extract_issue_date`. -/
def extract_issue_date (content : Str) : Option Str :=
  let preview := content.take 1500
  match priorityDateLoop priorityDatePatterns preview with
  | some r => some r
  | none => bareDateLoop bareDatePatterns preview

/-! ### Metadata extractor: issuing agency -/

/-- Characters allowed by `[^,\n]+`. -/
def notCommaNl (c : Char) : Bool := ¬(c = ',' ∨ c = '\n')

/-- Characters allowed by `[^,\n.]+`. -/
def notCommaNlDot (c : Char) : Bool := ¬(c = ',' ∨ c = '\n' ∨ c = '.')

/-- The lowercase forms of the accented capitals listed in the fallback
agency pattern's character class. -/
def VI_LOWER : Str :=
  str "àáạảãâầấậẩẫăằắặẳẵèéẹẻẽêềếệểễìíịỉĩòóọỏõôồốộổỗơờớợởỡùúụủũưừứựửữỳýỵỷỹđ"

/-- The fallback pattern's head class `[A-ZÀ..Đ]` under `re.IGNORECASE`:
a character matches when its lowercase form is an ASCII letter or one of
the listed accented letters. -/
def agencyHeadChar (c : Char) : Bool :=
  let l := lowerChar c
  ('a' ≤ l ∧ l ≤ 'z') || VI_LOWER.contains l

/-- `MetadataExtractor.AGENCY_PATTERNS` in declaration order. -/
def AGENCY_PATTERNS : List Matcher :=
  [ mseqs [mlit (str "Chính"), mclass isSpaceA true, mlit (str "phủ")],
    mseqs [mlit (str "Quốc"), mclass isSpaceA true, mlit (str "hội")],
    mseqs [mlit (str "Bộ"), mclass isSpaceA true, mclass notCommaNl true],
    mseqs [mlit (str "Ủy"), mclass isSpaceA true, mlit (str "ban"),
           mclass isSpaceA true, mclass notCommaNl true],
    mseqs [mlit (str "Ban"), mclass isSpaceA true, mclass notCommaNl true],
    mseqs [mlit (str "Sở"), mclass isSpaceA true, mclass notCommaNl true],
    mseqs [mlit (str "UBND"), mclass isSpaceA true, mclass notCommaNl true],
    mseqs [mlit (str "HĐND"), mclass isSpaceA true, mclass notCommaNl true],
    mseqs [mlit (str "Thủ"), mclass isSpaceA true, mlit (str "tướng")],
    mseqs [mlit (str "Chủ"), mclass isSpaceA true, mlit (str "tịch")] ]

/-- Fallback pattern `(?:CỦA|của)\s+([A-ZÀ..Đ][^,\n.]+)`. -/
def cuaPattern : Matcher :=
  mseqs [malt (mlit (str "CỦA")) (mlit (str "của")), mclass isSpaceA true,
         mgroup (mseq (mclassOne agencyHeadChar) (mclass notCommaNlDot true))]

/-- Python `str.rstrip('.,;:')`. -/
def rstripPunct (s : Str) : Str :=
  (s.reverse.dropWhile (fun c => c = '.' ∨ c = ',' ∨ c = ';' ∨ c = ':')).reverse

/-- Fuelled scan for `removeAll`. -/
def removeAllFuel (pat : Str) : Nat → Str → Str
  | 0, s => s
  | _ + 1, [] => []
  | fuel + 1, c :: t =>
    if pat.isPrefixOf (c :: t) then removeAllFuel pat fuel ((c :: t).drop pat.length)
    else c :: removeAllFuel pat fuel t

/-- Python `str.replace(pat, '')`: delete every non-overlapping leftmost
occurrence of `pat`. -/
def removeAll (pat s : Str) : Str :=
  if pat.isEmpty then s else removeAllFuel pat s.length s

/-- The cleanup applied to a fixed-pattern agency match: strip, drop
trailing punctuation, delete every occurrence of `CỦA` and `của`, strip. -/
def cleanAgency (m : Str) : Str :=
  pyStrip (removeAll (str "của") (removeAll (str "CỦA") (rstripPunct (pyStrip m))))

/-- The cleanup described by the spec sentence for C8: trailing punctuation
is trimmed and the connective word is dropped only when it leads. -/
def specCleanAgencyLeading (m : Str) : Str :=
  let a := rstripPunct (pyStrip m)
  let a := if (str "CỦA").isPrefixOf a then a.drop 3 else a
  let a := if (str "của").isPrefixOf a then a.drop 3 else a
  pyStrip a

/-- The fixed-pattern loop of `_extract_issuing_agency`: first pattern
whose cleaned match has length in (3, 200] wins. -/
def agencyLoop : List Matcher → Str → Option Str
  | [], _ => none
  | m :: ms, preview =>
    match reSearch m preview with
    | some (c, _) =>
      let agency := cleanAgency c
      if agency.length ≤ 200 ∧ 3 < agency.length then some agency else agencyLoop ms preview
    | none => agencyLoop ms preview

/-- The fallback branch of `_extract_issuing_agency`: search the generic
`của`-pattern, strip and trim the captured phrase, accept on the same
length bound (no connective-word removal happens on this path). -/
def cuaFallback (preview : Str) : Option Str :=
  match reSearch cuaPattern preview with
  | some (_, [g]) =>
    let a := rstripPunct (pyStrip g)
    if a.length ≤ 200 ∧ 3 < a.length then some a else none
  | _ => none

/-- The spec-side description of the fixed-pattern stage: clean every
pattern's first match and keep the first cleaned value whose length lies
in (3, 200]. -/
def specAgencyFirstQualify (pats : List Matcher) (preview : Str) : Option Str :=
  (pats.filterMap (fun m => (reSearch m preview).map (fun r => cleanAgency r.1))).find?
    (fun a => decide (a.length ≤ 200 ∧ 3 < a.length))

/-- `MetadataExtractor._extract_issuing_agency`. -/
def extract_issuing_agency (content : Str) : Option Str :=
  let preview := content.take 1000
  match agencyLoop AGENCY_PATTERNS preview with
  | some a => some a
  | none => cuaFallback preview

/-! ### Analyzer (`analyzer.py`) -/

/-- Python `' '.join` and friends. -/
def joinSep (sep : Str) : List Str → Str
  | [] => []
  | [x] => x
  | x :: xs => x ++ sep ++ joinSep sep xs

/-- Order-preserving de-duplication, Python `list(dict.fromkeys(l))`. -/
def dedupAux : List Str → List Str → List Str
  | _, [] => []
  | seen, x :: t =>
    if x ∈ seen then dedupAux seen t else x :: dedupAux (x :: seen) t

/-- Order-preserving de-duplication keeping first occurrences. -/
def dedupKeepFirst (l : List Str) : List Str := dedupAux [] l

/-- The `group_names` display mapping of the analyzer. -/
def GROUP_NAMES : List (Str × Str) :=
  [ (str "metro", str "Metro/Đường sắt đô thị"),
    (str "dau_thau", str "Đấu thầu/Khu giáo dục/TOD"),
    (str "chung_cu", str "Chung cư"),
    (str "nha_o_xa_hoi", str "Nhà ở xã hội"),
    (str "khac", str "Khác") ]

/-- `group_names.get(main_group, 'Khác')`. -/
def groupNameOf (g : Str) : Str := lookupD GROUP_NAMES g (str "Khác")

/-- The fixed prefix `"Tài liệu thuộc nhóm: <name>. "` of every summary. -/
def summaryPrefix (g : Str) : Str :=
  str "Tài liệu thuộc nhóm: " ++ groupNameOf g ++ str ". "

/-- The deterministic branch of `create_executive_summary`: join the first
two stripped lines longer than 50 characters (or the first 500 characters
of the text when there is none), truncate at 400 characters with an
ellipsis, and prefix the group name. -/
def deterministicSummary (content g : Str) : Str :=
  let paragraphs :=
    ((splitNl content).filter (fun p => decide (50 < (pyStrip p).length))).map pyStrip
  let paragraphs :=
    if paragraphs.isEmpty then
      [if 500 < content.length then content.take 500 else content]
    else paragraphs
  let summary_text := joinSep (str " ") (paragraphs.take 2)
  let summary_text :=
    if 400 < summary_text.length then summary_text.take 400 ++ str "..." else summary_text
  summaryPrefix g ++ summary_text

/-- `DocumentAnalyzer.create_executive_summary`.  The external
summarization capability is modelled by `oracle`: `none` when the library
or key is unavailable or the call raises, otherwise the stripped response
text; the model-assisted branch prefixes it with the group name, and any
failure falls back to the deterministic path. -/
def create_executive_summary (content : Str) (clf : ClassifyResult)
    (useOpenai : Bool) (oracle : Option Str) : Str :=
  let viaModel : Option Str :=
    if useOpenai then
      match oracle with
      | some s => some (summaryPrefix clf.main_group ++ s)
      | none => none
    else none
  match viaModel with
  | some s => s
  | none => deterministicSummary content clf.main_group

/-- `DocumentAnalyzer.COMMON_TAGS`. -/
def COMMON_TAGS : List Str :=
  [str "phap_ly", str "dau_thau", str "FS", str "Pre-FS", str "FEED", str "PPP",
   str "TOD", str "quy_hoach", str "von_dau_tu", str "thiet_ke", str "xay_dung",
   str "vận_hành", str "hop_dong", str "nghị_định", str "nghị_quyết",
   str "thông_tư", str "quyết_định", str "báo_cáo", str "thuyết_minh",
   str "kế_hoạch", str "dự_án"]

/-- Non-whitespace characters, the `[^\s]` class. -/
def notSpaceA (c : Char) : Bool := ¬isSpaceA c

/-- Reference-number pattern `<w1>\s*<w2>\s*số\s*(\d+[^\s]*)` used for
decree / resolution / circular numbers. -/
def refPattern (w1 w2 : Str) : Matcher :=
  mseqs [mlit w1, mclass isSpaceA false, mlit w2, mclass isSpaceA false,
         mlit (str "số"), mclass isSpaceA false,
         mgroup (mseq (mclass isDigitA true) (mclass notSpaceA false))]

/-- The three reference patterns with their keyword prefixes, in the order
the analyzer scans them. -/
def refSpecs : List (Matcher × Str) :=
  [ (refPattern (str "nghị") (str "định"), str "ND"),
    (refPattern (str "quyết") (str "định"), str "QD"),
    (refPattern (str "thông") (str "tư"), str "TT") ]

/-- `DocumentAnalyzer.extract_keywords_and_tags`.  In the source the local
`keywords` list is the same object as `classification['matched_keywords']`,
so the appended reference numbers also appear in the caller's
classification dict; the returned pair is (keywords and tags, the
classification as it stands after the call). -/
def extract_keywords_and_tags (content : Str) (clf : ClassifyResult) :
    (List Str × List Str) × ClassifyResult :=
  let cl := pyLower content
  let tags :=
    COMMON_TAGS.filter (fun tag =>
      isSubstr (tag.map (fun c => if c = '_' then ' ' else c)) cl ||
      isSubstr (tag.filter (fun c => ¬(c = '_'))) cl)
  let tags := tags ++ (if clf.main_group.isEmpty then [] else [clf.main_group])
  let refs :=
    refSpecs.flatMap (fun mp =>
      (((reFindAll mp.1 cl).filterMap group1).take 2).map (fun g => mp.2 ++ [' '] ++ g))
  let matched := clf.matched_keywords ++ refs
  let keywords := (dedupKeepFirst matched).take 10
  ((keywords, dedupKeepFirst tags), { clf with matched_keywords := matched })

/-- The fixed location list of `identify_projects_locations`. -/
def COMMON_LOCATIONS : List Str :=
  [str "Hà Nội", str "TP.HCM", str "TP Hồ Chí Minh", str "Bình Dương",
   str "Đồng Nai", str "Long An", str "Cần Thơ", str "Đà Nẵng", str "Hải Phòng"]

/-- The fixed project list of `identify_projects_locations`. -/
def COMMON_PROJECTS : List Str :=
  [str "Tuyến 1", str "Tuyến 2", str "Tuyến 3", str "Metro Line", str "TOD",
   str "Suối Cây Sao", str "Đường Thống Nhất", str "TOD4"]

/-- The class `[A-Z0-9\s]` under `re.IGNORECASE`. -/
def projTailChar (c : Char) : Bool :=
  (let l := lowerChar c; 'a' ≤ l ∧ l ≤ 'z') || isDigitA c || isSpaceA c

/-- Pattern `(dự\s*án|tuyến|metro\s*line)\s+[A-Z0-9\s]+`; note the capture
group covers only the alternation, which is what `re.findall` reports. -/
def projectPattern : Matcher :=
  mseqs [mgroup (malt (mseqs [mlit (str "dự"), mclass isSpaceA false, mlit (str "án")])
                  (malt (mlit (str "tuyến"))
                        (mseqs [mlit (str "metro"), mclass isSpaceA false, mlit (str "line")]))),
         mclass isSpaceA true, mclass projTailChar true]

/-- `DocumentAnalyzer.identify_projects_locations` (case-sensitive
substring tests against the fixed lists, then up to three stripped
group-1 strings of the project pattern). -/
def identify_projects_locations (content : Str) : List Str × List Str :=
  let locations := COMMON_LOCATIONS.filter (fun l => isSubstr l content)
  let projects := COMMON_PROJECTS.filter (fun p => isSubstr p content)
  let pm := ((((reFindAll projectPattern content).filterMap group1).take 3).map pyStrip)
  (dedupKeepFirst (projects ++ pm), dedupKeepFirst locations)

/-- The fixed sensitive-keyword list of `assess_security_level`. -/
def SENSITIVE_KEYWORDS : List Str :=
  [str "mật", str "bảo mật", str "bí mật", str "nội bộ", str "không công bố",
   str "confidential", str "internal", str "secret"]

/-- The fixed public-keyword list of `assess_security_level`. -/
def PUBLIC_KEYWORDS : List Str :=
  [str "công khai", str "phổ biến", str "thông báo", str "công bố"]

/-- `DocumentAnalyzer.assess_security_level`. -/
def assess_security_level (content filename : Str) : Str :=
  let cl := pyLower content
  let fl := pyLower filename
  if SENSITIVE_KEYWORDS.any (fun kw => isSubstr kw cl || isSubstr kw fl) then
    str "nhay_cam"
  else if isSubstr (str "nội bộ") cl || isSubstr (str "dự thảo") cl then
    str "noi_bo"
  else if PUBLIC_KEYWORDS.any (fun kw => isSubstr kw cl) then
    str "cong_khai"
  else
    str "noi_bo"

/-- The per-group action suggestions of `suggest_actions`. -/
def GROUP_ACTIONS : List (Str × List Str) :=
  [ (str "metro",
     [str "Chuyển cho phòng kỹ thuật Metro",
      str "Kiểm tra tính đồng bộ với các tuyến khác",
      str "Xem xét yêu cầu FS/Pre-FS/FEED"]),
    (str "dau_thau",
     [str "Chuyển cho phòng đấu thầu",
      str "Kiểm tra hồ sơ pháp lý dự án",
      str "Xem xét tiến độ đấu thầu"]),
    (str "chung_cu",
     [str "Chuyển cho phòng kinh doanh",
      str "Kiểm tra pháp lý dự án",
      str "Xem xét hồ sơ bán hàng"]),
    (str "nha_o_xa_hoi",
     [str "Chuyển cho phòng an sinh xã hội",
      str "Kiểm tra chính sách ưu đãi",
      str "Xem xét quy trình phê duyệt"]) ]

/-- `DocumentAnalyzer.suggest_actions`. -/
def suggest_actions (clf : ClassifyResult) (keywords : List Str) : List Str :=
  let base :=
    match GROUP_ACTIONS.find? (fun p => p.1 == clf.main_group) with
    | some p => p.2
    | none => []
  let kl := keywords.map pyLower
  let s := base ++
    (if kl.any (fun k => isSubstr (str "fs") k || isSubstr (str "feed") k) then
      [str "Kiểm tra đầy đủ hồ sơ FS/FEED"] else []) ++
    (if kl.any (fun k => isSubstr (str "phap_ly") k || isSubstr (str "pháp lý") k) then
      [str "Rà soát tính pháp lý của tài liệu"] else []) ++
    (if kl.any (fun k => isSubstr (str "dau_thau") k || isSubstr (str "đấu thầu") k) then
      [str "Cập nhật tiến độ đấu thầu"] else [])
  (dedupKeepFirst s).take 5

/-- The dictionary returned by `DocumentAnalyzer.analyze`. -/
structure AnalysisResult where
  executive_summary : Str
  keywords : List Str
  tags : List Str
  projects : List Str
  locations : List Str
  security_level : Str
  action_suggestions : List Str
deriving DecidableEq

/-- `DocumentAnalyzer.analyze`: the analysis dictionary together with the
state of the `classification` argument after the call (the source mutates
its `matched_keywords` list through aliasing in
`extract_keywords_and_tags`). -/
def analyze (content filename : Str) (clf : ClassifyResult)
    (useOpenai : Bool) (oracle : Option Str) : AnalysisResult × ClassifyResult :=
  let summary := create_executive_summary content clf useOpenai oracle
  let kt := extract_keywords_and_tags content clf
  let pl := identify_projects_locations content
  let security := assess_security_level content filename
  let actions := suggest_actions kt.2 kt.1.1
  ({ executive_summary := summary
     keywords := kt.1.1
     tags := kt.1.2
     projects := pl.1
     locations := pl.2
     security_level := security
     action_suggestions := actions }, kt.2)

/-! ### QA system (`qa_system.py`) -/

/-- One stored document as returned by the external corpus listing
(`get_documents_by_group`): identity, filename, full text, category and
the optional metadata triple. -/
structure QADoc where
  id : Nat
  filename : Str
  content : Str
  category : Str
  document_type : Option Str
  issuing_agency : Option Str
  issue_date : Option Str
deriving DecidableEq

/-- Python truthiness of an optional string (`None` and `''` are falsy). -/
def optTruthy : Option Str → Bool
  | none => false
  | some s => ¬s.isEmpty

/-- One entry of the list returned by `search_documents`.  Keys the source
adds only for truthy values are modelled as options normalized to `none`
when falsy. -/
structure SearchResult where
  filename : Str
  id : Nat
  category : Str
  relevant_text : List Str
  match_score : Nat
  full_content : Str
  document_type : Option Str
  issuing_agency : Option Str
  issue_date : Option Str
deriving DecidableEq

/-- `QASystem.search_documents` over a given corpus listing: cap the
listing at `maxDocs`, score each capped document by the number of
lowercased question tokens it contains, keep the stripped lines that hold
a token and exceed 20 characters (first three), drop documents with no
token hit or no qualifying line, and stable-sort by score descending. -/
def search_documents (question : Str) (docs : List QADoc) (maxDocs : Nat) :
    List SearchResult :=
  if docs.isEmpty then []
  else
    let qkw := splitWS (pyLower question)
    let results := (docs.take maxDocs).filterMap (fun doc =>
      let cl := pyLower doc.content
      let ms := (qkw.filter (fun kw => isSubstr kw cl)).length
      if 0 < ms then
        let rel := ((splitNl doc.content).filter (fun para =>
            qkw.any (fun kw => isSubstr kw (pyLower para)) ∧
              20 < (pyStrip para).length)).map pyStrip
        if rel.isEmpty then none
        else some
          { filename := doc.filename
            id := doc.id
            category := doc.category
            relevant_text := rel.take 3
            match_score := ms
            full_content := doc.content
            document_type := if optTruthy doc.document_type then doc.document_type else none
            issuing_agency := if optTruthy doc.issuing_agency then doc.issuing_agency else none
            issue_date := if optTruthy doc.issue_date then doc.issue_date else none }
      else none)
    sortByDesc (fun r => r.match_score) results

/-- One source reference of a question answer. -/
structure QASource where
  filename : Str
  id : Option Nat
  document_type : Option Str
  issuing_agency : Option Str
deriving DecidableEq

/-- Source entry built on the model-assisted path. -/
def mkSourceOpenai (r : SearchResult) : QASource :=
  { filename := r.filename
    id := if r.id ≠ 0 then some r.id else none
    document_type := if optTruthy r.document_type then r.document_type else none
    issuing_agency := if optTruthy r.issuing_agency then r.issuing_agency else none }

/-- Source entry built on the deterministic fallback path (it never
carries the issuing agency). -/
def mkSourceFallback (r : SearchResult) : QASource :=
  { filename := r.filename
    id := if r.id ≠ 0 then some r.id else none
    document_type := if optTruthy r.document_type then r.document_type else none
    issuing_agency := none }

/-- The dictionary returned by `answer_question`. -/
structure QAResult where
  answer : Str
  sources : List QASource
  confidence : Str
  method : Str
deriving DecidableEq

/-- `QASystem._answer_with_openai`, with the external call modelled by
`oracle` (`none` when the call raises, otherwise the stripped response):
it returns `none` when no client is configured or no context documents
exist, and the oracle outcome otherwise. -/
def answerWithOpenai (client : Bool) (results : List SearchResult)
    (oracle : Option Str) : Option Str :=
  if ¬client ∨ results.isEmpty then none else oracle

/-- The fixed no-information answer returned on an empty result list. -/
def qaNoInfo : QAResult :=
  { answer := str "Tài liệu hiện có chưa cung cấp thông tin này."
    sources := []
    confidence := str "low"
    method := str "simple" }

/-- The model-assisted branch of `answer_question`: `some` of the
non-empty answer when it is taken, `none` otherwise. -/
def qaViaModel (useOpenai client : Bool) (results : List SearchResult)
    (oracle : Option Str) : Option Str :=
  if useOpenai ∧ client then
    match answerWithOpenai client results oracle with
    | some a => if a.isEmpty then none else some a
    | none => none
  else none

/-- The deterministic fallback answer of `answer_question`: up to three
distinct relevant lines of the top three results, sources from the top
three results, confidence `high` with two or more results. -/
def qaFallback (results : List SearchResult) : QAResult :=
  let parts := (results.take 3).foldl (fun acc r =>
    r.relevant_text.foldl (fun acc t => if t ∈ acc then acc else acc ++ [t]) acc) []
  { answer := joinSep (str "\n\n") (parts.take 3)
    sources := (results.take 3).map mkSourceFallback
    confidence := if 2 ≤ results.length then str "high" else str "medium"
    method := str "simple" }

/-- `QASystem.answer_question` over a given corpus listing.  `client`
states whether an OpenAI client is configured; `oracle` models the
external call outcome as in `answerWithOpenai`. -/
def answer_question (question : Str) (docs : List QADoc)
    (useOpenai client : Bool) (oracle : Option Str) : QAResult :=
  let results := search_documents question docs 5
  if results.isEmpty then qaNoInfo
  else
    match qaViaModel useOpenai client results oracle with
    | some a =>
      { answer := a
        sources := (results.take 3).map mkSourceOpenai
        confidence := str "high"
        method := str "openai" }
    | none => qaFallback results

/-! ### Generic lemmas about the stable descending sort -/

theorem insertDesc_perm (key : α → Nat) (x : α) (l : List α) :
    List.Perm (insertDesc key x l) (x :: l) := by
  induction l with
  | nil => exact List.Perm.refl _
  | cons y t ih =>
    simp only [insertDesc]
    split
    · exact (ih.cons y).trans (List.Perm.swap x y t)
    · exact List.Perm.refl _

theorem sortByDesc_perm (key : α → Nat) (l : List α) :
    List.Perm (sortByDesc key l) l := by
  induction l with
  | nil => exact List.Perm.refl _
  | cons x t ih =>
    exact (insertDesc_perm key x (sortByDesc key t)).trans (ih.cons x)

theorem mem_sortByDesc {key : α → Nat} {l : List α} {p : α} :
    p ∈ sortByDesc key l ↔ p ∈ l :=
  (sortByDesc_perm key l).mem_iff


theorem insertDesc_pairwise (key : α → Nat) (x : α) (l : List α)
    (h : l.Pairwise (fun u v => key v ≤ key u)) :
    (insertDesc key x l).Pairwise (fun u v => key v ≤ key u) := by
  induction l with
  | nil => simp [insertDesc]
  | cons y t ih =>
    rw [List.pairwise_cons] at h
    obtain ⟨h1, h2⟩ := h
    simp only [insertDesc]
    split
    · rename_i hxy
      rw [List.pairwise_cons]
      refine ⟨fun b hb => ?_, ih h2⟩
      rcases List.mem_cons.mp ((insertDesc_perm key x t).mem_iff.mp hb) with rfl | hbt
      · omega
      · exact h1 _ hbt
    · rename_i hxy
      rw [List.pairwise_cons]
      refine ⟨fun b hb => ?_, List.pairwise_cons.mpr ⟨h1, h2⟩⟩
      rcases List.mem_cons.mp hb with rfl | hbt
      · omega
      · have := h1 _ hbt; omega

theorem sortByDesc_pairwise (key : α → Nat) (l : List α) :
    (sortByDesc key l).Pairwise (fun u v => key v ≤ key u) := by
  induction l with
  | nil => simp [sortByDesc]
  | cons x t ih => exact insertDesc_pairwise key x _ ih

/-! ### The first-maximum selection: `max`, the sort head, and `find`-style
search all pick the same entry -/

theorem insertDesc_head (key : α → Nat) (x : α) (l : List α) :
    (insertDesc key x l).head? =
      some (match l with
            | [] => x
            | y :: _ => if key x < key y then y else x) := by
  cases l with
  | nil => simp [insertDesc]
  | cons y t => simp only [insertDesc]; split <;> simp_all

theorem firstMax1_key_ge (key : α → Nat) (x : α) (t : List α) :
    ∀ q ∈ x :: t, key q ≤ key (firstMax1 key x t) := by
  induction t generalizing x with
  | nil =>
    intro q hq
    simp only [firstMax1]
    rcases List.mem_cons.mp hq with rfl | h
    · exact Nat.le_refl _
    · cases h
  | cons y t ih =>
    intro q hq
    simp only [firstMax1]
    rcases List.mem_cons.mp hq with rfl | hq
    · split <;> omega
    · have := ih y q hq
      split <;> omega

theorem firstMax1_mem (key : α → Nat) (x : α) (t : List α) :
    firstMax1 key x t ∈ x :: t := by
  induction t generalizing x with
  | nil => simp [firstMax1]
  | cons y t ih =>
    simp only [firstMax1]
    split
    · exact List.mem_cons_of_mem x (ih y)
    · exact List.mem_cons_self _ _

theorem sortByDesc_cons_head (key : α → Nat) (x : α) (t : List α) :
    (sortByDesc key (x :: t)).head? = some (firstMax1 key x t) := by
  induction t generalizing x with
  | nil => simp [sortByDesc, insertDesc, firstMax1]
  | cons y t ih =>
    have hyt := ih y
    simp only [sortByDesc] at hyt ⊢
    cases hs : insertDesc key y (sortByDesc key t) with
    | nil => rw [hs] at hyt; simp at hyt
    | cons m rest =>
      rw [hs] at hyt
      simp only [List.head?, Option.some.injEq] at hyt
      subst hyt
      rw [insertDesc_head]
      simp only [firstMax1]

theorem firstMax1_step (key : α → Nat) (x y : α) (t : List α)
    (h : key y ≤ key x) :
    firstMax1 key x t =
      if key x < key (firstMax1 key y t) then firstMax1 key y t else x := by
  cases t with
  | nil => simp only [firstMax1]; rw [if_neg (by omega)]
  | cons z t =>
    simp only [firstMax1]
    by_cases hx : key x < key (firstMax1 key z t)
    · rw [if_pos hx]
      have hy : key y < key (firstMax1 key z t) := by omega
      rw [if_pos hy, if_pos hx]
    · rw [if_neg hx]
      by_cases hy : key y < key (firstMax1 key z t)
      · rw [if_pos hy, if_neg hx]
      · rw [if_neg hy, if_neg (show ¬key x < key y by omega)]

theorem foldl_pyMax_eq_firstMax1 (t : List (Str × Nat)) :
    ∀ x, t.foldl (fun best q => if best.2 < q.2 then q else best) x =
      firstMax1 (fun p => p.2) x t := by
  induction t with
  | nil => intro x; rfl
  | cons y t ih =>
    intro x
    simp only [List.foldl, firstMax1]
    by_cases hxy : x.2 < y.2
    · rw [if_pos hxy, ih y]
      have hyy : y.2 ≤ (firstMax1 (fun p => p.2) y t).2 :=
        firstMax1_key_ge _ y t y (List.mem_cons_self _ _)
      rw [if_pos (lt_of_lt_of_le hxy hyy)]
    · rw [if_neg hxy, ih x, firstMax1_step (fun p => p.2) x y t (Nat.le_of_not_lt hxy)]

theorem pyMaxPair_cons (x : Str × Nat) (t : List (Str × Nat)) :
    pyMaxPair (x :: t) = firstMax1 (fun p => p.2) x t :=
  foldl_pyMax_eq_firstMax1 t x

theorem firstMaxEntry_of_firstMax1 (x : Str × Nat) (t : List (Str × Nat)) :
    firstMaxEntry (firstMax1 (fun p => p.2) x t).2 (x :: t) =
      some (firstMax1 (fun p => p.2) x t) := by
  induction t generalizing x with
  | nil => simp [firstMaxEntry, firstMax1]
  | cons y t ih =>
    simp only [firstMax1, firstMaxEntry]
    by_cases hx : x.2 < (firstMax1 (fun p => p.2) y t).2
    · rw [if_pos hx, if_neg (by omega)]
      have := ih y
      simp only [firstMax1, firstMaxEntry] at this
      exact this
    · rw [if_neg hx, if_pos (by omega)]

theorem foldr_max_le (l : List Nat) (K : Nat) (h : ∀ v ∈ l, v ≤ K) :
    l.foldr Nat.max 0 ≤ K := by
  induction l with
  | nil => simp
  | cons v t ih =>
    simp only [List.foldr]
    exact Nat.max_le.mpr ⟨h v (by simp), ih (fun w hw => h w (by simp [hw]))⟩

theorem le_foldr_max (l : List Nat) (v : Nat) (h : v ∈ l) :
    v ≤ l.foldr Nat.max 0 := by
  induction l with
  | nil => cases h
  | cons w t ih =>
    simp only [List.foldr]
    rcases List.mem_cons.mp h with rfl | h
    · exact Nat.le_max_left _ _
    · exact le_trans (ih h) (Nat.le_max_right _ _)

theorem foldr_max_eq_firstMax1 (x : Str × Nat) (t : List (Str × Nat)) :
    ((x :: t).map (fun p => p.2)).foldr Nat.max 0 = (firstMax1 (fun p => p.2) x t).2 := by
  apply Nat.le_antisymm
  · apply foldr_max_le
    intro v hv
    obtain ⟨p, hp, rfl⟩ := List.mem_map.mp hv
    exact firstMax1_key_ge _ x t p hp
  · exact le_foldr_max _ _ (List.mem_map.mpr ⟨_, firstMax1_mem _ x t, rfl⟩)

theorem foldl_add_eq_sum (l : List (Str × Nat)) :
    ∀ n, l.foldl (fun a p => a + p.2) n = n + (l.map (fun p => p.2)).sum := by
  induction l with
  | nil => intro n; simp
  | cons p t ih =>
    intro n
    simp only [List.foldl, List.map, List.sum_cons]
    rw [ih]
    omega

/-! ### Helper lemmas about `buildResult` and `classify` -/

theorem scoresOf_eq_row (content filename : Str) :
    ∃ a b c d, scoresOf content filename = scoreRow a b c d :=
  ⟨_, _, _, _, rfl⟩

theorem buildResult_scores (s : List (Str × Nat)) (ms : List (Str × List Str)) :
    (buildResult s ms).scores = s := rfl

theorem classify_scores (content filename : Str) :
    (classify content filename).scores = scoresOf content filename := rfl

theorem buildResult_allZero (s : List (Str × Nat)) (ms : List (Str × List Str))
    (h : s.all (fun p => p.2 == 0) = true) :
    (buildResult s ms).main_group = str "khac" ∧
    (buildResult s ms).confidence = str "thap" ∧
    (buildResult s ms).matched_keywords = [] := by
  simp only [buildResult, h]
  refine ⟨rfl, rfl, ?_⟩
  simp

theorem buildResult_main_of_not_allZero (s : List (Str × Nat)) (ms : List (Str × List Str))
    (h : s.all (fun p => p.2 == 0) = false) :
    (buildResult s ms).main_group = (pyMaxPair s).1 := by
  simp only [buildResult, h]
  simp

theorem buildResult_confidence_of_not_allZero (s : List (Str × Nat)) (ms : List (Str × List Str))
    (h : s.all (fun p => p.2 == 0) = false) :
    (buildResult s ms).confidence =
      (if 5 ≤ (pyMaxPair s).2 ∧
          3 * Nat.max (s.foldl (fun a p => a + p.2) 0) 1 < 5 * (pyMaxPair s).2
       then str "cao"
       else if 2 ≤ (pyMaxPair s).2 then str "trung_binh" else str "thap") := by
  simp only [buildResult, h]
  simp

theorem buildResult_sub_groups (s : List (Str × Nat)) (ms : List (Str × List Str)) :
    (buildResult s ms).sub_groups =
      ((((sortByDesc (fun p => p.2) s).drop 1).take 2).filter
        (fun p => decide (0 < p.2) && decide (p.1 ≠ (buildResult s ms).main_group))).map
        (fun p => { group := p.1, folder := lookupD FOLDER_MAPPING p.1 (str ""), score := p.2 }) :=
  rfl

theorem buildResult_sub_le_two (s : List (Str × Nat)) (ms : List (Str × List Str)) :
    (buildResult s ms).sub_groups.length ≤ 2 := by
  rw [buildResult_sub_groups, List.length_map]
  exact le_trans (List.length_filter_le _ _) (List.length_take_le _ _)

theorem buildResult_sub_mem (s : List (Str × Nat)) (ms : List (Str × List Str)) :
    ∀ g ∈ (buildResult s ms).sub_groups,
      g.group ≠ (buildResult s ms).main_group ∧ 0 < g.score := by
  intro g hg
  rw [buildResult_sub_groups] at hg
  obtain ⟨p, hp, rfl⟩ := List.mem_map.mp hg
  have hf := List.of_mem_filter hp
  simp only [Bool.and_eq_true, decide_eq_true_eq] at hf
  exact ⟨hf.2, hf.1⟩

theorem buildResult_sub_map (s : List (Str × Nat)) (ms : List (Str × List Str))
    (x : Str × Nat) (t : List (Str × Nat)) (hs : s = x :: t)
    (hnd : (s.map (fun p => p.1)).Nodup)
    (hkhac : str "khac" ∉ s.map (fun p => p.1)) :
    (buildResult s ms).sub_groups.map (fun g => (g.group, g.score)) =
      (((sortByDesc (fun p => p.2) s).drop 1).take 2).filter (fun p => decide (0 < p.2)) := by
  have hne : ∀ p ∈ ((sortByDesc (fun p => p.2) s).drop 1).take 2,
      p.1 ≠ (buildResult s ms).main_group := by
    by_cases hz : s.all (fun p => p.2 == 0) = true
    · intro p hp
      have hmem : p ∈ s := mem_sortByDesc.mp
        (List.mem_of_mem_drop (List.mem_of_mem_take hp))
      have := (buildResult_allZero s ms hz).1
      rw [this]
      intro hcontra
      exact hkhac (hcontra ▸ List.mem_map.mpr ⟨p, hmem, rfl⟩)
    · have hz' : s.all (fun p => p.2 == 0) = false := Bool.eq_false_iff.mpr hz
      rw [buildResult_main_of_not_allZero s ms hz']
      subst hs
      have hhead := sortByDesc_cons_head (fun p => p.2) x t
      cases hsort : sortByDesc (fun p => p.2) (x :: t) with
      | nil => rw [hsort] at hhead; cases hhead
      | cons m rest =>
        rw [hsort] at hhead
        simp only [List.head?, Option.some.injEq] at hhead
        have hndsort : ((sortByDesc (fun p => p.2) (x :: t)).map (fun p => p.1)).Nodup :=
          (((sortByDesc_perm (fun p => p.2) (x :: t))).map (fun p => p.1)).nodup_iff.mpr hnd
        rw [hsort] at hndsort
        simp only [List.map_cons, List.nodup_cons] at hndsort
        intro p hp
        have hpr : p ∈ rest := List.mem_of_mem_take (by simpa using hp)
        intro hcontra
        rw [pyMaxPair_cons, ← hhead] at hcontra
        exact hndsort.1 (hcontra ▸ List.mem_map.mpr ⟨p, hpr, rfl⟩)
  rw [buildResult_sub_groups, List.map_map]
  rw [show ((fun g : SubGroup => (g.group, g.score)) ∘
        fun p : Str × Nat =>
          ({ group := p.1, folder := lookupD FOLDER_MAPPING p.1 (str ""), score := p.2 } : SubGroup)) =
      id from rfl, List.map_id]
  apply List.filter_congr
  intro p hp
  simp [hne p hp]

/-- C1: for every text and filename the classification result satisfies the
structural invariant: `scores` has an entry for every defined group in
declaration order; if all scores are zero the result is the `khac`
("other") group with confidence `thap` ("low"), no matched keywords and no
sub-groups; otherwise `main_group` is the earliest declared group attaining
the maximal score; and `sub_groups` is exactly the slice of the next two
entries of the stable descending sort of `scores`, restricted to positive
scores, hence of length at most 2, never containing `main_group` and never
containing a zero-score group. -/
theorem C1_classify_invariant (content filename : Str) :
    ((classify content filename).scores.map (fun p => p.1) =
       [str "metro", str "dau_thau", str "chung_cu", str "nha_o_xa_hoi"]) ∧
    ((∀ p ∈ (classify content filename).scores, p.2 = 0) →
       (classify content filename).main_group = str "khac" ∧
       (classify content filename).confidence = str "thap" ∧
       (classify content filename).matched_keywords = [] ∧
       (classify content filename).sub_groups = []) ∧
    ((∃ p ∈ (classify content filename).scores, 0 < p.2) →
       firstMaxEntry (maxScoreOf (classify content filename))
           (classify content filename).scores =
         some ((classify content filename).main_group,
               maxScoreOf (classify content filename))) ∧
    (classify content filename).sub_groups.length ≤ 2 ∧
    (∀ g ∈ (classify content filename).sub_groups,
       g.group ≠ (classify content filename).main_group ∧ 0 < g.score) ∧
    ((classify content filename).sub_groups.map (fun g => (g.group, g.score)) =
       (((sortByDesc (fun p => p.2) (classify content filename).scores).drop 1).take 2).filter
         (fun p => decide (0 < p.2))) := by
  obtain ⟨a, b, c, d, hrow⟩ := scoresOf_eq_row content filename
  have hcl : classify content filename =
      buildResult (scoreRow a b c d) (matchesOf content filename) := by
    rw [← hrow]; rfl
  have hxt : scoreRow a b c d =
      (str "metro", a) ::
        [(str "dau_thau", b), (str "chung_cu", c), (str "nha_o_xa_hoi", d)] := rfl
  refine ⟨?_, ?_, ?_, ?_, ?_, ?_⟩
  · rw [hcl, buildResult_scores]; rfl
  · intro hz
    rw [hcl, buildResult_scores] at hz
    have hallz : (scoreRow a b c d).all (fun p => p.2 == 0) = true := by
      rw [List.all_eq_true]
      intro p hp
      rw [beq_iff_eq]
      exact hz p hp
    obtain ⟨h1, h2, h3⟩ := buildResult_allZero (scoreRow a b c d) (matchesOf content filename) hallz
    rw [hcl]
    refine ⟨h1, h2, h3, ?_⟩
    rw [buildResult_sub_groups]
    rw [List.map_eq_nil_iff]
    rw [List.filter_eq_nil_iff]
    intro p hp
    have hmem : p ∈ scoreRow a b c d := mem_sortByDesc.mp
      (List.mem_of_mem_drop (List.mem_of_mem_take hp))
    simp [hz p hmem]
  · intro hex
    rw [hcl, buildResult_scores] at hex
    have hallz : (scoreRow a b c d).all (fun p => p.2 == 0) = false := by
      rw [Bool.eq_false_iff]
      intro hall
      rw [List.all_eq_true] at hall
      obtain ⟨p, hp, hpos⟩ := hex
      have := hall p hp
      rw [beq_iff_eq] at this
      omega
    have hmain := buildResult_main_of_not_allZero (scoreRow a b c d)
      (matchesOf content filename) hallz
    have hmax : maxScoreOf (classify content filename) =
        (firstMax1 (fun p => p.2) (str "metro", a)
          [(str "dau_thau", b), (str "chung_cu", c), (str "nha_o_xa_hoi", d)]).2 := by
      rw [maxScoreOf, hcl, buildResult_scores, hxt, foldr_max_eq_firstMax1]
    rw [hcl, buildResult_scores, hmain, hxt, hmax, pyMaxPair_cons] at *
    rw [firstMaxEntry_of_firstMax1]
  · rw [hcl]; exact buildResult_sub_le_two _ _
  · rw [hcl]; exact buildResult_sub_mem _ _
  · rw [hcl, buildResult_scores]
    have hnd : ((scoreRow a b c d).map (fun p => p.1)).Nodup := by
      show ([str "metro", str "dau_thau", str "chung_cu", str "nha_o_xa_hoi"] : List Str).Nodup
      decide
    have hkh : str "khac" ∉ (scoreRow a b c d).map (fun p => p.1) := by
      show str "khac" ∉ [str "metro", str "dau_thau", str "chung_cu", str "nha_o_xa_hoi"]
      decide
    exact buildResult_sub_map _ _ _ _ hxt hnd hkh

theorem le_sum_of_mem {l : List Nat} {v : Nat} (h : v ∈ l) : v ≤ l.sum := by
  induction l with
  | nil => cases h
  | cons w t ih =>
    rw [List.sum_cons]
    rcases List.mem_cons.mp h with rfl | h
    · omega
    · have := ih h; omega

/-- C2: whenever some group scores positively, the classifier's confidence
tier is exactly: `cao` ("high") iff the maximal score is at least 5 and
strictly exceeds 0.6 of the total score (embedded exactly as
`3 * total < 5 * max`); otherwise `trung_binh` ("medium") iff the maximal
score is at least 2; otherwise `thap` ("low"). -/
theorem C2_confidence_tiers (content filename : Str)
    (h : ∃ p ∈ (classify content filename).scores, 0 < p.2) :
    ((classify content filename).confidence = str "cao" ↔
       5 ≤ maxScoreOf (classify content filename) ∧
       3 * totalScoreOf (classify content filename) <
         5 * maxScoreOf (classify content filename)) ∧
    ((classify content filename).confidence = str "trung_binh" ↔
       ¬(5 ≤ maxScoreOf (classify content filename) ∧
         3 * totalScoreOf (classify content filename) <
           5 * maxScoreOf (classify content filename)) ∧
       2 ≤ maxScoreOf (classify content filename)) ∧
    ((classify content filename).confidence = str "thap" ↔
       ¬(5 ≤ maxScoreOf (classify content filename) ∧
         3 * totalScoreOf (classify content filename) <
           5 * maxScoreOf (classify content filename)) ∧
       maxScoreOf (classify content filename) < 2) := by
  obtain ⟨a, b, c, d, hrow⟩ := scoresOf_eq_row content filename
  have hcl : classify content filename =
      buildResult (scoreRow a b c d) (matchesOf content filename) := by
    rw [← hrow]; rfl
  have hxt : scoreRow a b c d =
      (str "metro", a) ::
        [(str "dau_thau", b), (str "chung_cu", c), (str "nha_o_xa_hoi", d)] := rfl
  rw [hcl, buildResult_scores] at h
  have hallz : (scoreRow a b c d).all (fun p => p.2 == 0) = false := by
    rw [Bool.eq_false_iff]
    intro hall
    rw [List.all_eq_true] at hall
    obtain ⟨p, hp, hpos⟩ := h
    have := hall p hp
    rw [beq_iff_eq] at this
    omega
  have hconf := buildResult_confidence_of_not_allZero (scoreRow a b c d)
    (matchesOf content filename) hallz
  have hmax : maxScoreOf (classify content filename) = (pyMaxPair (scoreRow a b c d)).2 := by
    rw [maxScoreOf, hcl, buildResult_scores, hxt, foldr_max_eq_firstMax1, pyMaxPair_cons]
  have htot : totalScoreOf (classify content filename) =
      (scoreRow a b c d).foldl (fun a p => a + p.2) 0 := by
    rw [totalScoreOf, hcl, buildResult_scores, foldl_add_eq_sum]
    omega
  have htotpos : 1 ≤ (scoreRow a b c d).foldl (fun a p => a + p.2) 0 := by
    obtain ⟨p, hp, hpos⟩ := h
    rw [foldl_add_eq_sum]
    have : p.2 ≤ ((scoreRow a b c d).map (fun p => p.2)).sum :=
      le_sum_of_mem (List.mem_map.mpr ⟨p, hp, rfl⟩)
    omega
  have hmaxtot : Nat.max ((scoreRow a b c d).foldl (fun a p => a + p.2) 0) 1 =
      (scoreRow a b c d).foldl (fun a p => a + p.2) 0 :=
    Nat.max_eq_left htotpos
  have hne1 : str "cao" ≠ str "trung_binh" := by decide
  have hne2 : str "cao" ≠ str "thap" := by decide
  have hne3 : str "trung_binh" ≠ str "thap" := by decide
  rw [hmax, htot, hcl, hconf, hmaxtot]
  generalize (pyMaxPair (scoreRow a b c d)).2 = M
  generalize (scoreRow a b c d).foldl (fun a p => a + p.2) 0 = T
  refine ⟨?_, ?_, ?_⟩ <;> split_ifs <;>
    simp [hne1, hne2, hne3, hne1.symm, hne2.symm, hne3.symm] <;> omega

/-- Witness for C2: a text holding exactly five occurrences of the metro
keyword `metro` and no keyword of any other group is classified with
confidence `cao` ("high"). -/
theorem C2_confidence_tiers_witness :
    (classify (str "metro metro metro metro metro") []).confidence = str "cao" :=
  (C2_confidence_tiers (str "metro metro metro metro metro") []
      (by decide)).1.mpr (by decide)

/-! ### C3: per-group score and matched-keyword characterization -/

theorem fold1_score (cl : Str) : ∀ (kws : List Str) (acc : Nat × List Str),
    (kws.foldl (fun acc kw =>
        let c := countOcc (pyLower kw) cl
        if 0 < c then (acc.1 + c, acc.2 ++ [kw]) else acc) acc).1 =
      acc.1 + (kws.map (fun kw => countOcc (pyLower kw) cl)).sum := by
  intro kws
  induction kws with
  | nil => intro acc; simp
  | cons kw t ih =>
    intro acc
    simp only [List.foldl, List.map, List.sum_cons]
    by_cases h : 0 < countOcc (pyLower kw) cl
    · rw [if_pos h, ih]; simp; omega
    · rw [if_neg h, ih]
      have hz : countOcc (pyLower kw) cl = 0 := by omega
      omega

theorem fold1_matched (cl : Str) : ∀ (kws : List Str) (acc : Nat × List Str),
    (kws.foldl (fun acc kw =>
        let c := countOcc (pyLower kw) cl
        if 0 < c then (acc.1 + c, acc.2 ++ [kw]) else acc) acc).2 =
      acc.2 ++ kws.filter (fun kw => decide (0 < countOcc (pyLower kw) cl)) := by
  intro kws
  induction kws with
  | nil => intro acc; simp
  | cons kw t ih =>
    intro acc
    simp only [List.foldl, List.filter_cons]
    by_cases h : 0 < countOcc (pyLower kw) cl
    · rw [if_pos h, ih]
      simp [h]
    · rw [if_neg h, ih]
      simp [h]

theorem fold2_score (fl : Str) : ∀ (kws : List Str) (acc : Nat × List Str),
    (kws.foldl (fun acc kw =>
        if isSubstr (pyLower kw) fl then
          (acc.1 + 2, if acc.2.contains kw then acc.2 else acc.2 ++ [kw])
        else acc) acc).1 =
      acc.1 + 2 * (kws.filter (fun kw => isSubstr (pyLower kw) fl)).length := by
  intro kws
  induction kws with
  | nil => intro acc; simp
  | cons kw t ih =>
    intro acc
    simp only [List.foldl, List.filter_cons]
    by_cases h : isSubstr (pyLower kw) fl = true
    · rw [if_pos h, ih]
      simp [h]
      omega
    · rw [if_neg h, ih]
      simp [h]

theorem fold2_matched (cl fl : Str) : ∀ (kws : List Str) (acc : Nat × List Str),
    kws.Nodup →
    (∀ kw ∈ kws, (kw ∈ acc.2 ↔ 0 < countOcc (pyLower kw) cl)) →
    (kws.foldl (fun acc kw =>
        if isSubstr (pyLower kw) fl then
          (acc.1 + 2, if acc.2.contains kw then acc.2 else acc.2 ++ [kw])
        else acc) acc).2 =
      acc.2 ++ kws.filter (fun kw =>
        isSubstr (pyLower kw) fl && decide (countOcc (pyLower kw) cl = 0)) := by
  intro kws
  induction kws with
  | nil => intro acc _ _; simp
  | cons kw t ih =>
    intro acc hnd hinv
    rw [List.nodup_cons] at hnd
    simp only [List.foldl, List.filter_cons]
    by_cases h : isSubstr (pyLower kw) fl = true
    · rw [if_pos h]
      by_cases hc : kw ∈ acc.2
      · have hcount : 0 < countOcc (pyLower kw) cl :=
          (hinv kw (List.mem_cons_self _ _)).mp hc
        have hcontains : acc.2.contains kw = true := by simp [hc]
        rw [hcontains]
        simp only [if_true]
        have hhead : (isSubstr (pyLower kw) fl &&
            decide (countOcc (pyLower kw) cl = 0)) = false := by
          simp [h]; omega
        rw [hhead,
          ih (acc.1 + 2, acc.2) hnd.2
            (fun kw2 hkw2 => hinv kw2 (List.mem_cons_of_mem _ hkw2))]
        simp
      · have hcount : countOcc (pyLower kw) cl = 0 := by
          have hiff := hinv kw (List.mem_cons_self _ _)
          have hnpos : ¬ 0 < countOcc (pyLower kw) cl := fun hpos => hc (hiff.mpr hpos)
          omega
        have hcontains : acc.2.contains kw = false := by simp [hc]
        rw [hcontains]
        simp only [Bool.false_eq_true, if_false]
        have hinv2 : ∀ kw2 ∈ t, (kw2 ∈ acc.2 ++ [kw] ↔ 0 < countOcc (pyLower kw2) cl) := by
          intro kw2 hkw2
          rw [List.mem_append, List.mem_singleton]
          constructor
          · rintro (hmem | rfl)
            · exact (hinv kw2 (List.mem_cons_of_mem _ hkw2)).mp hmem
            · exact absurd hkw2 hnd.1
          · intro hpos
            exact Or.inl ((hinv kw2 (List.mem_cons_of_mem _ hkw2)).mpr hpos)
        have hhead : (isSubstr (pyLower kw) fl &&
            decide (countOcc (pyLower kw) cl = 0)) = true := by
          simp [h, hcount]
        rw [hhead, ih (acc.1 + 2, acc.2 ++ [kw]) hnd.2 hinv2]
        simp
    · rw [if_neg h]
      have hhead : (isSubstr (pyLower kw) fl &&
          decide (countOcc (pyLower kw) cl = 0)) = false := by
        simp [h]
      rw [hhead,
        ih acc hnd.2 (fun kw2 hkw2 => hinv kw2 (List.mem_cons_of_mem _ hkw2))]
      simp

theorem sum_map_add_bonus (cl fl : Str) (kws : List Str) :
    (kws.map (fun kw =>
        countOcc (pyLower kw) cl + if isSubstr (pyLower kw) fl then 2 else 0)).sum =
      (kws.map (fun kw => countOcc (pyLower kw) cl)).sum +
        2 * (kws.filter (fun kw => isSubstr (pyLower kw) fl)).length := by
  induction kws with
  | nil => simp
  | cons kw t ih =>
    simp only [List.map, List.sum_cons, List.filter_cons]
    by_cases h : isSubstr (pyLower kw) fl = true
    · rw [if_pos h]
      simp only [h, if_true, List.length_cons]
      omega
    · rw [if_neg h]
      have hf : isSubstr (pyLower kw) fl = false := Bool.eq_false_iff.mpr h
      simp only [hf, Bool.false_eq_true, if_false]
      omega

theorem groupScoreAndMatches_score (kws : List Str) (cl fl : Str) :
    (groupScoreAndMatches kws cl fl).1 =
      (kws.map (fun kw =>
        countOcc (pyLower kw) cl + if isSubstr (pyLower kw) fl then 2 else 0)).sum := by
  simp only [groupScoreAndMatches]
  rw [fold2_score, fold1_score, sum_map_add_bonus cl fl kws]
  omega

theorem groupScoreAndMatches_matched (kws : List Str) (cl fl : Str) (hnd : kws.Nodup) :
    (groupScoreAndMatches kws cl fl).2 =
      kws.filter (fun kw => decide (0 < countOcc (pyLower kw) cl)) ++
      kws.filter (fun kw =>
        isSubstr (pyLower kw) fl && decide (countOcc (pyLower kw) cl = 0)) := by
  simp only [groupScoreAndMatches]
  rw [fold2_matched cl fl kws _ hnd, fold1_matched]
  · simp
  · intro kw hkw
    rw [fold1_matched]
    simp [List.mem_filter, hkw]

theorem groupScoreAndMatches_nodup (kws : List Str) (cl fl : Str) (hnd : kws.Nodup) :
    (groupScoreAndMatches kws cl fl).2.Nodup := by
  rw [groupScoreAndMatches_matched kws cl fl hnd]
  apply List.Nodup.append (hnd.filter _) (hnd.filter _)
  intro x hx1 hx2
  have h1 := List.of_mem_filter hx1
  have h2 := List.of_mem_filter hx2
  simp only [decide_eq_true_eq, Bool.and_eq_true] at h1 h2
  omega

theorem lookupD_map_of_mem {β : Type} (f : List Str → β) (d : β) :
    ∀ (l : List (Str × List Str)) (g : Str) (kws : List Str),
    (g, kws) ∈ l → (l.map (fun p => p.1)).Nodup →
    lookupD (l.map (fun p => (p.1, f p.2))) g d = f kws := by
  intro l
  induction l with
  | nil => intro g kws hg _; cases hg
  | cons p t ih =>
    intro g kws hg hnd
    simp only [List.map_cons, List.nodup_cons] at hnd
    rcases List.mem_cons.mp hg with heq | hmem
    · have hg1 : p.1 = g := by rw [← heq]
      have hg2 : p.2 = kws := by rw [← heq]
      subst hg2
      simp only [lookupD, List.map_cons, List.find?]
      rw [show (p.1 == g) = true from beq_iff_eq.mpr hg1]
    · have hne : (p.1 == g) = false := by
        rw [beq_eq_false_iff_ne]
        intro hcontra
        exact hnd.1 (hcontra ▸ List.mem_map.mpr ⟨(g, kws), hmem, rfl⟩)
      simp only [lookupD, List.map_cons, List.find?, hne]
      exact ih g kws hmem hnd.2

theorem KEYWORDS_keys_nodup : (KEYWORDS.map (fun p => p.1)).Nodup := by decide

theorem KEYWORDS_lists_nodup : ∀ p ∈ KEYWORDS, p.2.Nodup := by decide

/-- C3: for every text and filename, each group's score equals the sum over
the group's keywords of the number of case-insensitive non-overlapping
occurrences in the text plus a bonus of 2 for each keyword contained in the
lowercased filename; and the group's matched-keyword list is exactly the
keywords matched in the text (in declaration order) followed by the
keywords matched only in the filename (in declaration order), each
contributing keyword listed exactly once. -/
theorem C3_scores_and_matched (g : Str) (kws : List Str)
    (hg : (g, kws) ∈ KEYWORDS) (content filename : Str) :
    lookupD (scoresOf content filename) g 0 =
      (kws.map (fun kw => specKeywordScore kw content filename)).sum ∧
    lookupD (matchesOf content filename) g [] =
      kws.filter (fun kw => decide (0 < countOcc (pyLower kw) (pyLower content))) ++
        kws.filter (fun kw =>
          isSubstr (pyLower kw) (pyLower filename) &&
            decide (countOcc (pyLower kw) (pyLower content) = 0)) ∧
    (lookupD (matchesOf content filename) g []).Nodup := by
  have hnd : kws.Nodup := KEYWORDS_lists_nodup (g, kws) hg
  have hsc : lookupD (scoresOf content filename) g 0 =
      (groupScoreAndMatches kws (pyLower content) (pyLower filename)).1 :=
    lookupD_map_of_mem
      (fun l => (groupScoreAndMatches l (pyLower content) (pyLower filename)).1) 0
      KEYWORDS g kws hg KEYWORDS_keys_nodup
  have hmt : lookupD (matchesOf content filename) g [] =
      (groupScoreAndMatches kws (pyLower content) (pyLower filename)).2 :=
    lookupD_map_of_mem
      (fun l => (groupScoreAndMatches l (pyLower content) (pyLower filename)).2) []
      KEYWORDS g kws hg KEYWORDS_keys_nodup
  refine ⟨?_, ?_, ?_⟩
  · rw [hsc, groupScoreAndMatches_score]
    rfl
  · rw [hmt, groupScoreAndMatches_matched _ _ _ hnd]
  · rw [hmt]
    exact groupScoreAndMatches_nodup _ _ _ hnd

/-- Witness for C3: instantiated at the social-housing group, a text that
is exactly the keyword `NOXH`, and an empty filename, the characterized
score evaluates to 1. -/
theorem C3_scores_and_matched_witness :
    lookupD (scoresOf (str "NOXH") []) (str "nha_o_xa_hoi") 0 = 1 := by
  have h := C3_scores_and_matched (str "nha_o_xa_hoi")
    [str "nhà ở xã hội", str "NOXH", str "nhà ở công nhân",
     str "nhà ở cho người thu nhập thấp", str "chính sách nhà ở xã hội",
     str "ưu đãi nhà ở", str "an sinh xã hội", str "dự án an sinh",
     str "nhà ở cho người nghèo", str "social housing"]
    (by decide) (str "NOXH") []
  rw [h.1]
  decide

/-- Witness for C1: a text with no keyword of any group lands in the
`khac` ("other") group. -/
theorem C1_classify_invariant_witness :
    (classify (str "van ban binh thuong") []).main_group = str "khac" :=
  ((C1_classify_invariant (str "van ban binh thuong") []).2.1 (by decide)).1

/-! ### C7: security level -/

/-- C7: the security level is `nhay_cam` ("sensitive") exactly when a
sensitive keyword occurs case-insensitively in the text or filename,
taking precedence over every other check; with no sensitive hit, a text
containing the internal/draft words yields `noi_bo` ("internal");
otherwise a public-keyword hit yields `cong_khai` ("public"); otherwise
the default is `noi_bo`. -/
theorem C7_security_level (content filename : Str) :
    ((∃ kw ∈ SENSITIVE_KEYWORDS,
        isSubstr kw (pyLower content) = true ∨ isSubstr kw (pyLower filename) = true) ↔
      assess_security_level content filename = str "nhay_cam") ∧
    ((¬∃ kw ∈ SENSITIVE_KEYWORDS,
        isSubstr kw (pyLower content) = true ∨ isSubstr kw (pyLower filename) = true) →
      (isSubstr (str "nội bộ") (pyLower content) = true ∨
        isSubstr (str "dự thảo") (pyLower content) = true) →
      assess_security_level content filename = str "noi_bo") ∧
    ((¬∃ kw ∈ SENSITIVE_KEYWORDS,
        isSubstr kw (pyLower content) = true ∨ isSubstr kw (pyLower filename) = true) →
      ¬(isSubstr (str "nội bộ") (pyLower content) = true ∨
        isSubstr (str "dự thảo") (pyLower content) = true) →
      ((∃ kw ∈ PUBLIC_KEYWORDS, isSubstr kw (pyLower content) = true) ↔
        assess_security_level content filename = str "cong_khai")) ∧
    ((¬∃ kw ∈ SENSITIVE_KEYWORDS,
        isSubstr kw (pyLower content) = true ∨ isSubstr kw (pyLower filename) = true) →
      ¬(isSubstr (str "nội bộ") (pyLower content) = true ∨
        isSubstr (str "dự thảo") (pyLower content) = true) →
      (¬∃ kw ∈ PUBLIC_KEYWORDS, isSubstr kw (pyLower content) = true) →
      assess_security_level content filename = str "noi_bo") := by
  have hSens : (SENSITIVE_KEYWORDS.any
      (fun kw => isSubstr kw (pyLower content) || isSubstr kw (pyLower filename))) = true ↔
      (∃ kw ∈ SENSITIVE_KEYWORDS,
        isSubstr kw (pyLower content) = true ∨ isSubstr kw (pyLower filename) = true) := by
    simp [List.any_eq_true]
  have hPub : (PUBLIC_KEYWORDS.any (fun kw => isSubstr kw (pyLower content))) = true ↔
      (∃ kw ∈ PUBLIC_KEYWORDS, isSubstr kw (pyLower content) = true) := by
    simp [List.any_eq_true]
  have hInt : (isSubstr (str "nội bộ") (pyLower content) ||
      isSubstr (str "dự thảo") (pyLower content)) = true ↔
      (isSubstr (str "nội bộ") (pyLower content) = true ∨
        isSubstr (str "dự thảo") (pyLower content) = true) := by
    simp
  simp only [assess_security_level]
  by_cases h1 : (SENSITIVE_KEYWORDS.any
      (fun kw => isSubstr kw (pyLower content) || isSubstr kw (pyLower filename))) = true
  · rw [if_pos h1]
    refine ⟨⟨fun _ => rfl, fun _ => hSens.mp h1⟩,
      fun hno _ => absurd (hSens.mp h1) hno,
      fun hno _ => absurd (hSens.mp h1) hno,
      fun hno _ _ => absurd (hSens.mp h1) hno⟩
  · rw [if_neg h1]
    have hnos : ¬∃ kw ∈ SENSITIVE_KEYWORDS,
        isSubstr kw (pyLower content) = true ∨ isSubstr kw (pyLower filename) = true :=
      fun hex => h1 (hSens.mpr hex)
    by_cases h2 : (isSubstr (str "nội bộ") (pyLower content) ||
        isSubstr (str "dự thảo") (pyLower content)) = true
    · rw [if_pos h2]
      refine ⟨iff_of_false hnos (by decide), fun _ _ => rfl,
        fun _ hint => absurd (hInt.mp h2) hint,
        fun _ hint _ => absurd (hInt.mp h2) hint⟩
    · rw [if_neg h2]
      by_cases h3 : (PUBLIC_KEYWORDS.any (fun kw => isSubstr kw (pyLower content))) = true
      · rw [if_pos h3]
        refine ⟨iff_of_false hnos (by decide),
          fun _ hint => absurd (hInt.mpr hint) h2,
          fun _ _ => ⟨fun _ => rfl, fun _ => hPub.mp h3⟩,
          fun _ _ hno => absurd (hPub.mp h3) hno⟩
      · rw [if_neg h3]
        refine ⟨iff_of_false hnos (by decide),
          fun _ hint => absurd (hInt.mpr hint) h2,
          fun _ _ => iff_of_false (fun hex => h3 (hPub.mpr hex)) (by decide),
          fun _ _ _ => rfl⟩

/-- Witness for C7: a draft document with no sensitive keyword is graded
internal. -/
theorem C7_security_level_witness :
    assess_security_level (str "tai lieu dự thảo") [] = str "noi_bo" :=
  (C7_security_level (str "tai lieu dự thảo") []).2.1 (by decide) (by decide)

/-! ### C10: deterministic executive summary -/

/-- C10: the deterministic executive summary is the fixed group-name
prefix followed by a body of at most 400 characters, plus an ellipsis
after exactly 400 kept characters when truncated; and when no
newline-separated line of the content has stripped length above 50
(including the empty text) the body is built from the first 500
characters of the content. -/
theorem C10_executive_summary (content : Str) (clf : ClassifyResult) :
    (∃ body, create_executive_summary content clf false none =
        summaryPrefix clf.main_group ++ body ∧
        (body.length ≤ 400 ∨ ∃ t, t.length = 400 ∧ body = t ++ str "...")) ∧
    ((∀ line ∈ splitNl content, (pyStrip line).length ≤ 50) →
      create_executive_summary content clf false none =
        summaryPrefix clf.main_group ++
          (if 400 < (content.take 500).length then
            (content.take 500).take 400 ++ str "..."
           else content.take 500)) := by
  have hdet : create_executive_summary content clf false none =
      deterministicSummary content clf.main_group := rfl
  constructor
  · rw [hdet]
    simp only [deterministicSummary]
    set S := joinSep (str " ")
      ((if (((splitNl content).filter (fun p => decide (50 < (pyStrip p).length))).map pyStrip).isEmpty
        then [if 500 < content.length then content.take 500 else content]
        else ((splitNl content).filter (fun p => decide (50 < (pyStrip p).length))).map pyStrip).take 2)
      with hS
    by_cases h : 400 < S.length
    · refine ⟨S.take 400 ++ str "...", by rw [if_pos h], Or.inr ⟨S.take 400, ?_, rfl⟩⟩
      rw [List.length_take]
      omega
    · exact ⟨S, by rw [if_neg h], Or.inl (by omega)⟩
  · intro hz
    rw [hdet]
    simp only [deterministicSummary]
    have hfil : (splitNl content).filter (fun p => decide (50 < (pyStrip p).length)) = [] := by
      rw [List.filter_eq_nil_iff]
      intro a ha
      simp only [decide_eq_true_eq, Nat.not_lt]
      exact hz a ha
    rw [hfil]
    have hc500 : (if 500 < content.length then content.take 500 else content) =
        content.take 500 := by
      split
      · rfl
      · exact (List.take_of_length_le (by omega)).symm
    simp only [List.map_nil, List.isEmpty_nil, if_true, hc500]
    rfl

/-- Witness for C10: a three-line text whose lines are all short is
summarized from its leading characters. -/
theorem C10_executive_summary_witness :
    create_executive_summary (str "dong 1\ndong 2") (classify [] []) false none =
      summaryPrefix (classify [] []).main_group ++ str "dong 1\ndong 2" :=
  ((C10_executive_summary (str "dong 1\ndong 2") (classify [] [])).2 (by decide)).trans
    (by decide)

/-! ### C9: `analyze` mutates its classification argument -/

/-- C9 (failing input): on a text holding a decree reference number,
`analyze` appends the extracted reference to the caller's
`matched_keywords` list through the aliasing in
`extract_keywords_and_tags`, so the classification argument is NOT left
unchanged: its matched-keyword sequence differs after the call. -/
theorem C9_analyze_mutates_classification :
    (classify (str "nghị định số 15/2025 metro") []).matched_keywords = [str "metro"] ∧
    (analyze (str "nghị định số 15/2025 metro") []
        (classify (str "nghị định số 15/2025 metro") []) false none).2.matched_keywords =
      [str "metro", str "ND 15/2025"] ∧
    (analyze (str "nghị định số 15/2025 metro") []
        (classify (str "nghị định số 15/2025 metro") []) false none).2.matched_keywords ≠
      (classify (str "nghị định số 15/2025 metro") []).matched_keywords := by
  refine ⟨by decide, by decide, by decide⟩

/-! ### C6: issue-date extraction and normalization -/

theorem priorityDateLoop_shape :
    ∀ (pats : List Matcher) (s : Str) (r : Str),
      priorityDateLoop pats s = some r → ∃ d m y, r = fmtDate d m y := by
  intro pats
  induction pats with
  | nil => intro s r h; simp [priorityDateLoop] at h
  | cons m ms ih =>
    intro s r h
    simp only [priorityDateLoop] at h
    rcases hg : reFindAll m s with _ | ⟨g, rest⟩ <;> rw [hg] at h
    · exact ih s r h
    · rcases g with _ | ⟨d, _ | ⟨mo, _ | ⟨y, _ | ⟨z, g⟩⟩⟩⟩
      · exact ih s r h
      · exact ih s r h
      · exact ih s r h
      · simp only at h
        split_ifs at h with hy
        · exact ⟨d, mo, y, (Option.some.injEq _ _ ▸ h).symm⟩
        · exact ih s r h
      · exact ih s r h

theorem bareDateLoop_shape :
    ∀ (pats : List Matcher) (s : Str) (r : Str),
      bareDateLoop pats s = some r → ∃ d m y, r = fmtDate d m y := by
  intro pats
  induction pats with
  | nil => intro s r h; simp [bareDateLoop] at h
  | cons m ms ih =>
    intro s r h
    simp only [bareDateLoop] at h
    rcases hg : reFindAll m s with _ | ⟨g, rest⟩ <;> rw [hg] at h
    · exact ih s r h
    · rcases g with _ | ⟨x, _ | ⟨y, _ | ⟨z, _ | ⟨w, g⟩⟩⟩⟩
      · exact ih s r h
      · exact ih s r h
      · exact ih s r h
      · simp only at h
        split_ifs at h with hz
        · exact ⟨x, y, z, (Option.some.injEq _ _ ▸ h).symm⟩
        · exact ⟨z, y, x, (Option.some.injEq _ _ ▸ h).symm⟩
      · exact ih s r h

/-- C6: the three date spellings `19-02-2025`, `19/02/2025` and
`2025-02-19` all normalize to `19/02/2025` (the position of the four-digit
year selecting the day/month/year order); a date anchored to the word
`ngày` takes precedence over an earlier bare date; whenever a priority
(anchored) pattern produces a date it is the extractor's result; and every
extracted date has the zero-padded `DD/MM/YYYY` shape. -/
theorem C6_issue_date :
    extract_issue_date (str "19-02-2025") = some (str "19/02/2025") ∧
    extract_issue_date (str "19/02/2025") = some (str "19/02/2025") ∧
    extract_issue_date (str "2025-02-19") = some (str "19/02/2025") ∧
    extract_issue_date (str "02/03/2004 van ban ngày 19-02-2025") = some (str "19/02/2025") ∧
    (∀ (content r : Str),
      priorityDateLoop priorityDatePatterns (content.take 1500) = some r →
      extract_issue_date content = some r) ∧
    (∀ (content r : Str), extract_issue_date content = some r →
      ∃ d m y, r = zfill2 d ++ ['/'] ++ zfill2 m ++ ['/'] ++ y) := by
  refine ⟨by decide, by decide, by decide, by decide, ?_, ?_⟩
  · intro content r h
    simp only [extract_issue_date, h]
  · intro content r h
    simp only [extract_issue_date] at h
    rcases hp : priorityDateLoop priorityDatePatterns (content.take 1500) with _ | v <;>
      rw [hp] at h
    · exact bareDateLoop_shape _ _ _ h
    · obtain ⟨d, m, y, hv⟩ := priorityDateLoop_shape _ _ _ hp
      exact ⟨d, m, y, by rw [← Option.some.injEq _ _ |>.mp h, hv]; rfl⟩

/-- Witness for C6: an anchored single-digit date is extracted and
zero-padded. -/
theorem C6_issue_date_witness :
    extract_issue_date (str "ngày 7-8-1999") = some (str "07/08/1999") :=
  C6_issue_date.2.2.2.2.1 (str "ngày 7-8-1999") (str "07/08/1999") (by decide)

/-! ### C8: issuing-agency extraction -/

theorem agencyLoop_eq_spec :
    ∀ (pats : List Matcher) (preview : Str),
      agencyLoop pats preview = specAgencyFirstQualify pats preview := by
  intro pats
  induction pats with
  | nil => intro preview; rfl
  | cons m ms ih =>
    intro preview
    simp only [agencyLoop, specAgencyFirstQualify, List.filterMap_cons]
    rcases hr : reSearch m preview with _ | ⟨c, g⟩
    · simp only [Option.map_none]
      exact ih preview
    · simp only [Option.map_some, List.find?]
      by_cases hq : (cleanAgency c).length ≤ 200 ∧ 3 < (cleanAgency c).length
    -- within the some-branch the code tests the same bound the spec does
      · rw [if_pos hq, show (decide ((cleanAgency c).length ≤ 200 ∧ 3 < (cleanAgency c).length)) = true
          from decide_eq_true hq]
      · rw [if_neg hq, show (decide ((cleanAgency c).length ≤ 200 ∧ 3 < (cleanAgency c).length)) = false
          from decide_eq_false hq]
        exact ih preview

theorem agencyLoop_bounds :
    ∀ (pats : List Matcher) (preview a : Str),
      agencyLoop pats preview = some a → 3 < a.length ∧ a.length ≤ 200 := by
  intro pats
  induction pats with
  | nil => intro preview a h; simp [agencyLoop] at h
  | cons m ms ih =>
    intro preview a h
    simp only [agencyLoop] at h
    rcases hr : reSearch m preview with _ | ⟨c, g⟩ <;> rw [hr] at h
    · exact ih preview a h
    · dsimp only at h
      split_ifs at h with hq
      · cases h
        exact ⟨hq.2, hq.1⟩
      · exact ih preview a h

theorem cuaFallback_bounds (preview a : Str) (h : cuaFallback preview = some a) :
    3 < a.length ∧ a.length ≤ 200 := by
  simp only [cuaFallback] at h
  rcases hr : reSearch cuaPattern preview with _ | ⟨c, g⟩ <;> rw [hr] at h
  · cases h
  · rcases g with _ | ⟨g1, _ | ⟨g2, rest⟩⟩
    · cases h
    · dsimp only at h
      split_ifs at h with hq
      cases h
      exact ⟨hq.2, hq.1⟩
    · cases h

/-- C8 (counterexample): the claim says the connective word `của` is
trimmed from the match only when it leads.  On the text
`Bộ Kế hoạch của nước` the first matching fixed pattern matches the whole
phrase, whose leading-trim cleanup is the phrase itself, yet the extractor
deletes the mid-phrase `của` and returns `Bộ Kế hoạch  nước`. -/
theorem C8_issuing_agency_counterexample :
    (reSearch (mseqs [mlit (str "Bộ"), mclass isSpaceA true, mclass notCommaNl true])
        (str "Bộ Kế hoạch của nước")).map (fun r => r.1) =
      some (str "Bộ Kế hoạch của nước") ∧
    specCleanAgencyLeading (str "Bộ Kế hoạch của nước") = str "Bộ Kế hoạch của nước" ∧
    extract_issuing_agency (str "Bộ Kế hoạch của nước") = some (str "Bộ Kế hoạch  nước") ∧
    str "Bộ Kế hoạch  nước" ≠ str "Bộ Kế hoạch của nước" := by
  refine ⟨by decide, by decide, by decide, by decide⟩

/-- C8 (amended): the issuing agency is the first fixed pattern (in
declaration order) whose first match, after stripping, trimming trailing
punctuation and deleting EVERY exact-case occurrence of `CỦA`/`của`,
has length in (3, 200]; when no fixed pattern qualifies the generic
`của`-fallback pattern applies (with strip and punctuation-trim only); the
field is absent when nothing qualifies, and every returned agency has
length in (3, 200]. -/
theorem C8_issuing_agency (content : Str) :
    extract_issuing_agency content =
      (match specAgencyFirstQualify AGENCY_PATTERNS (content.take 1000) with
       | some a => some a
       | none => cuaFallback (content.take 1000)) ∧
    (∀ a, extract_issuing_agency content = some a → 3 < a.length ∧ a.length ≤ 200) := by
  constructor
  · simp only [extract_issuing_agency, agencyLoop_eq_spec]
  · intro a h
    simp only [extract_issuing_agency] at h
    rcases hl : agencyLoop AGENCY_PATTERNS (content.take 1000) with _ | v <;> rw [hl] at h
    · exact cuaFallback_bounds _ _ h
    · cases h
      exact agencyLoop_bounds _ _ _ hl

/-- Witness for C8 (amended): the agency extracted from
`Bộ Kế hoạch của nước` respects the length bound. -/
theorem C8_issuing_agency_witness :
    3 < (str "Bộ Kế hoạch  nước").length ∧ (str "Bộ Kế hoạch  nước").length ≤ 200 :=
  (C8_issuing_agency (str "Bộ Kế hoạch của nước")).2 (str "Bộ Kế hoạch  nước") (by decide)

/-! ### C4: answer composition paths -/

/-- C4: `answer_question` reports method `openai` ("model-assisted") only
when model use is requested, a client is configured, and the external call
returned a non-empty answer; with no search results it returns the fixed
no-information dictionary (confidence `low`, empty sources, method
`simple`) regardless of the flags; and in every other case it takes the
deterministic fallback: method `simple`, confidence `high` with at least
two results and `medium` otherwise, sources drawn from the top three
results. -/
theorem C4_answer_question_paths (question : Str) (docs : List QADoc)
    (useOpenai client : Bool) (oracle : Option Str) :
    ((answer_question question docs useOpenai client oracle).method = str "openai" →
      useOpenai = true ∧ client = true ∧ ∃ a, oracle = some a ∧ a ≠ []) ∧
    (search_documents question docs 5 = [] →
      answer_question question docs useOpenai client oracle = qaNoInfo) ∧
    (∀ rs, search_documents question docs 5 = rs → rs ≠ [] →
      (useOpenai = false ∨ client = false ∨ oracle = none ∨ oracle = some []) →
      (answer_question question docs useOpenai client oracle).method = str "simple" ∧
      (answer_question question docs useOpenai client oracle).confidence =
        (if 2 ≤ rs.length then str "high" else str "medium") ∧
      (answer_question question docs useOpenai client oracle).sources =
        (rs.take 3).map mkSourceFallback) := by
  refine ⟨?_, ?_, ?_⟩
  · intro h
    simp only [answer_question] at h
    by_cases hres : (search_documents question docs 5).isEmpty
    · rw [if_pos hres] at h
      exact absurd h (by decide)
    · rw [if_neg hres] at h
      rcases hv : qaViaModel useOpenai client (search_documents question docs 5) oracle
        with _ | a <;> rw [hv] at h
      · dsimp only [qaFallback] at h
        exact absurd h (by decide)
      · simp only [qaViaModel] at hv
        split_ifs at hv with hcl
        rcases ho : answerWithOpenai client (search_documents question docs 5) oracle
          with _ | b <;> rw [ho] at hv
        · cases hv
        · dsimp only at hv
          split_ifs at hv with hb
          cases hv
          simp only [answerWithOpenai] at ho
          rw [if_neg (by simp [hcl.2, hres])] at ho
          refine ⟨hcl.1, hcl.2, a, ho, fun hbe => hb ?_⟩
          rw [hbe]
          rfl
  · intro hempty
    simp only [answer_question, hempty]
    rfl
  · intro rs hrs hne hdisj
    simp only [answer_question, hrs]
    have hie : rs.isEmpty = false := by
      rcases rs with _ | _
      · exact absurd rfl hne
      · rfl
    rw [hie]
    simp only [Bool.false_eq_true, if_false]
    have hvm : qaViaModel useOpenai client rs oracle = none := by
      simp only [qaViaModel]
      rcases hdisj with h | h | h | h
      · rw [h]; simp
      · rw [h]; simp
      · simp only [answerWithOpenai, h]
        split_ifs <;> rfl
      · simp only [answerWithOpenai, h]
        split_ifs <;> rfl
    rw [hvm]
    exact ⟨rfl, rfl, rfl⟩

/-- Witness for C4: on an empty corpus the fixed no-information answer is
returned even though model use is requested and configured. -/
theorem C4_answer_question_paths_witness :
    answer_question (str "metro la gi") [] true true (some (str "mot cau tra loi")) = qaNoInfo :=
  (C4_answer_question_paths (str "metro la gi") [] true true
    (some (str "mot cau tra loi"))).2.1 (by decide)

/-! ### C5: string infrastructure (substring vs strip and lowercasing) -/

theorem charOfNat_toNat (n : Nat) (h : n < 0xD800) : (Char.ofNat n).toNat = n := by
  unfold Char.ofNat
  rw [dif_pos (Or.inl h)]
  rfl

theorem isSpaceA_lowerChar (c : Char) : isSpaceA (lowerChar c) = isSpaceA c := by
  simp only [lowerChar]
  split_ifs with h1 h2 h3 h4 <;>
    first
      | rfl
      | (unfold isSpaceA
         rw [charOfNat_toNat _ (by omega)]
         simp only [decide_eq_decide]
         omega)

theorem isPrefixOf_iff_ex : ∀ (p s : Str), p.isPrefixOf s = true ↔ ∃ v, s = p ++ v := by
  intro p
  induction p with
  | nil => intro s; simp [List.isPrefixOf]
  | cons c p' ih =>
    intro s
    cases s with
    | nil => simp [List.isPrefixOf]
    | cons d t =>
      simp only [List.isPrefixOf, Bool.and_eq_true, beq_iff_eq, ih, List.cons_append,
        List.cons.injEq]
      constructor
      · rintro ⟨rfl, v, rfl⟩; exact ⟨v, rfl, rfl⟩
      · rintro ⟨v, rfl, rfl⟩; exact ⟨rfl, v, rfl⟩

theorem isSubstr_nil (p : Str) : isSubstr p [] = p.isPrefixOf [] := by
  simp [isSubstr]

theorem isSubstr_cons (p : Str) (c : Char) (t : Str) :
    isSubstr p (c :: t) = (p.isPrefixOf (c :: t) || isSubstr p t) := by
  simp [isSubstr, List.tails_cons]

theorem isSubstr_iff_parts : ∀ (s p : Str), isSubstr p s = true ↔ ∃ u v, s = u ++ (p ++ v) := by
  intro s
  induction s with
  | nil =>
    intro p
    rw [isSubstr_nil, isPrefixOf_iff_ex]
    constructor
    · rintro ⟨v, hv⟩; exact ⟨[], v, hv⟩
    · rintro ⟨u, v, huv⟩
      rw [List.nil_eq, List.append_eq_nil, List.append_eq_nil] at huv
      exact ⟨[], by rw [huv.2.1]; rfl⟩
  | cons c t ih =>
    intro p
    rw [isSubstr_cons, Bool.or_eq_true, isPrefixOf_iff_ex, ih]
    constructor
    · rintro (⟨v, hv⟩ | ⟨u, v, huv⟩)
      · exact ⟨[], v, by rw [hv]; rfl⟩
      · exact ⟨c :: u, v, by rw [huv]; rfl⟩
    · rintro ⟨u, v, huv⟩
      cases u with
      | nil => exact Or.inl ⟨v, by simpa using huv⟩
      | cons a u' =>
        rw [List.cons_append] at huv
        injection huv with h1 h2
        exact Or.inr ⟨u', v, h2⟩

theorem isSubstr_reverse_of {p s : Str} (h : isSubstr p s = true) :
    isSubstr p.reverse s.reverse = true := by
  obtain ⟨u, v, rfl⟩ := (isSubstr_iff_parts s p).mp h
  refine (isSubstr_iff_parts _ _).mpr ⟨v.reverse, u.reverse, ?_⟩
  simp [List.reverse_append]

theorem isSubstr_dropWhile_parts (p : Str) (hne : p ≠ [])
    (hns : ∀ c ∈ p, isSpaceA c = false) :
    ∀ (u v : Str), isSubstr p ((u ++ (p ++ v)).dropWhile isSpaceA) = true := by
  intro u
  induction u with
  | nil =>
    intro v
    rcases p with _ | ⟨c, p'⟩
    · exact absurd rfl hne
    · rw [List.nil_append, List.cons_append, List.dropWhile_cons,
        hns c (List.mem_cons_self _ _)]
      simp only [Bool.false_eq_true, if_false]
      exact (isSubstr_iff_parts _ _).mpr ⟨[], v, rfl⟩
  | cons a u' ih =>
    intro v
    rw [List.cons_append, List.dropWhile_cons]
    by_cases ha : isSpaceA a = true
    · rw [if_pos ha]
      exact ih v
    · rw [if_neg ha]
      exact (isSubstr_iff_parts _ _).mpr ⟨a :: u', v, rfl⟩

theorem isSubstr_dropWhile {p s : Str} (hne : p ≠ [])
    (hns : ∀ c ∈ p, isSpaceA c = false) (h : isSubstr p s = true) :
    isSubstr p (s.dropWhile isSpaceA) = true := by
  obtain ⟨u, v, rfl⟩ := (isSubstr_iff_parts s p).mp h
  exact isSubstr_dropWhile_parts p hne hns u v

theorem isSubstr_pyStrip {p s : Str} (hne : p ≠ [])
    (hns : ∀ c ∈ p, isSpaceA c = false) (h : isSubstr p s = true) :
    isSubstr p (pyStrip s) = true := by
  have h1 : isSubstr p (s.dropWhile isSpaceA) = true := isSubstr_dropWhile hne hns h
  have h2 : isSubstr p.reverse (s.dropWhile isSpaceA).reverse = true :=
    isSubstr_reverse_of h1
  have hne' : p.reverse ≠ [] := by
    intro hc
    exact hne (by simpa using congrArg List.reverse hc)
  have hns' : ∀ c ∈ p.reverse, isSpaceA c = false := fun c hc =>
    hns c (List.mem_reverse.mp hc)
  have h3 : isSubstr p.reverse ((s.dropWhile isSpaceA).reverse.dropWhile isSpaceA) = true :=
    isSubstr_dropWhile hne' hns' h2
  have h4 := isSubstr_reverse_of h3
  rw [List.reverse_reverse] at h4
  exact h4

theorem dropWhile_head_false (p : α → Bool) (l : List α) :
    l.dropWhile p = [] ∨ ∃ x t, l.dropWhile p = x :: t ∧ p x = false := by
  induction l with
  | nil => exact Or.inl rfl
  | cons a t ih =>
    rw [List.dropWhile_cons]
    by_cases h : p a = true
    · rw [if_pos h]; exact ih
    · rw [if_neg h]; exact Or.inr ⟨a, t, rfl, Bool.eq_false_iff.mpr h⟩

theorem dropWhile_cons_of_neg {p : α → Bool} {x : α} {t : List α} (h : p x = false) :
    (x :: t).dropWhile p = x :: t := by
  rw [List.dropWhile_cons, h]
  simp

theorem dropWhile_idem (p : α → Bool) (l : List α) :
    (l.dropWhile p).dropWhile p = l.dropWhile p := by
  rcases dropWhile_head_false p l with h | ⟨x, t, hxt, hx⟩
  · rw [h]; rfl
  · rw [hxt]
    exact dropWhile_cons_of_neg hx

theorem pyStrip_prefix_dropWhile (s : Str) :
    ∃ u, s.dropWhile isSpaceA = pyStrip s ++ u := by
  obtain ⟨ww, hww⟩ := List.dropWhile_suffix (l := (s.dropWhile isSpaceA).reverse) isSpaceA
  refine ⟨ww.reverse, ?_⟩
  calc s.dropWhile isSpaceA
      = ((s.dropWhile isSpaceA).reverse).reverse := (List.reverse_reverse _).symm
    _ = (ww ++ (s.dropWhile isSpaceA).reverse.dropWhile isSpaceA).reverse := by rw [hww]
    _ = pyStrip s ++ ww.reverse := by rw [List.reverse_append]; rfl

theorem pyStrip_head_false (s : Str) :
    pyStrip s = [] ∨ ∃ x t, pyStrip s = x :: t ∧ isSpaceA x = false := by
  obtain ⟨u, hu⟩ := pyStrip_prefix_dropWhile s
  rcases dropWhile_head_false isSpaceA s with h | ⟨x, t, hxt, hx⟩
  · left
    rw [h] at hu
    exact (List.append_eq_nil.mp hu.symm).1
  · rcases hstrip : pyStrip s with _ | ⟨y, t'⟩
    · exact Or.inl rfl
    · right
      refine ⟨y, t', rfl, ?_⟩
      rw [hstrip, hxt, List.cons_append] at hu
      injection hu with h1 _
      exact h1 ▸ hx

theorem pyStrip_dropWhile (s : Str) : (pyStrip s).dropWhile isSpaceA = pyStrip s := by
  rcases pyStrip_head_false s with h | ⟨x, t, hxt, hx⟩
  · rw [h]; rfl
  · rw [hxt]
    exact dropWhile_cons_of_neg hx

theorem pyStrip_idem (s : Str) : pyStrip (pyStrip s) = pyStrip s := by
  show (((pyStrip s).dropWhile isSpaceA).reverse.dropWhile isSpaceA).reverse = pyStrip s
  rw [pyStrip_dropWhile]
  have hrev : (pyStrip s).reverse = (s.dropWhile isSpaceA).reverse.dropWhile isSpaceA := by
    show (((s.dropWhile isSpaceA).reverse.dropWhile isSpaceA).reverse).reverse = _
    rw [List.reverse_reverse]
  rw [hrev, dropWhile_idem, ← hrev, List.reverse_reverse]

theorem dropWhile_isSpaceA_map_lowerChar (l : Str) :
    (l.map lowerChar).dropWhile isSpaceA = (l.dropWhile isSpaceA).map lowerChar := by
  rw [List.dropWhile_map]
  have hfun : (isSpaceA ∘ lowerChar) = isSpaceA := funext fun c => isSpaceA_lowerChar c
  rw [hfun]

theorem pyLower_pyStrip (s : Str) : pyLower (pyStrip s) = pyStrip (pyLower s) := by
  show (((s.dropWhile isSpaceA).reverse.dropWhile isSpaceA).reverse).map lowerChar =
    (((s.map lowerChar).dropWhile isSpaceA).reverse.dropWhile isSpaceA).reverse
  rw [dropWhile_isSpaceA_map_lowerChar, ← List.map_reverse, dropWhile_isSpaceA_map_lowerChar,
    ← List.map_reverse]

theorem splitWSFuel_tok : ∀ (fuel : Nat) (s tok : Str), tok ∈ splitWSFuel fuel s →
    tok ≠ [] ∧ ∀ c ∈ tok, isSpaceA c = false := by
  intro fuel
  induction fuel with
  | zero => intro s tok h; cases h
  | succ n ih =>
    intro s tok h
    cases s with
    | nil => cases h
    | cons c t =>
      simp only [splitWSFuel] at h
      by_cases hc : isSpaceA c = true
      · rw [if_pos hc] at h
        exact ih t tok h
      · rw [if_neg hc] at h
        rcases List.mem_cons.mp h with rfl | hmem
        · constructor
          · rw [List.takeWhile_cons]
            simp [hc]
          · intro d hd
            have := List.mem_takeWhile_imp hd
            simpa using this
        · exact ih _ tok hmem

theorem splitWS_tok {s tok : Str} (h : tok ∈ splitWS s) :
    tok ≠ [] ∧ ∀ c ∈ tok, isSpaceA c = false :=
  splitWSFuel_tok s.length s tok h

theorem search_documents_mem (question : Str) (docs : List QADoc) (maxDocs : Nat)
    (r : SearchResult) (hr : r ∈ search_documents question docs maxDocs) :
    ∃ d ∈ docs.take maxDocs,
      r.filename = d.filename ∧ r.full_content = d.content ∧
      r.relevant_text ≠ [] ∧ r.relevant_text.length ≤ 3 ∧
      ∀ line ∈ r.relevant_text, ∃ para,
        line = pyStrip para ∧ 20 < (pyStrip para).length ∧
        ∃ tok ∈ splitWS (pyLower question), isSubstr tok (pyLower para) = true := by
  simp only [search_documents] at hr
  by_cases hd : docs.isEmpty
  · rw [if_pos hd] at hr; cases hr
  · rw [if_neg hd] at hr
    have hr' := mem_sortByDesc.mp hr
    obtain ⟨d, hdmem, hf⟩ := List.mem_filterMap.mp hr'
    refine ⟨d, hdmem, ?_⟩
    split at hf
    next hms =>
      split at hf
      next => cases hf
      next hrel =>
        cases hf
        refine ⟨rfl, rfl, ?_, ?_, ?_⟩
        · dsimp only
          intro hnil
          rcases List.take_eq_nil_iff.mp hnil with h3 | hrelnil
          · cases h3
          · exact hrel (by rw [hrelnil]; rfl)
        · dsimp only
          rw [List.length_take]
          omega
        · dsimp only
          intro line hline
          have hline' := List.mem_of_mem_take hline
          obtain ⟨para, hpf, hps⟩ := List.mem_map.mp hline'
          have hcond := List.of_mem_filter hpf
          simp only [decide_eq_true_eq] at hcond
          obtain ⟨hany, hlen⟩ := hcond
          obtain ⟨tok, htokmem, hsub⟩ := List.any_eq_true.mp hany
          exact ⟨para, hps.symm, hlen, tok, htokmem, hsub⟩
    next => cases hf

/-- C5: the capped listing is all `search_documents` ever considers (the
cap precedes scoring, so the search over `docs` equals the search over
`docs.take maxDocs` and every result stems from a capped document); every
result's `relevant_text` is non-empty, holds at most three lines, and each
line has stripped length above 20 and contains a lowercased question
token; and the results are sorted by match count descending. -/
theorem C5_search_properties (question : Str) (docs : List QADoc) (maxDocs : Nat) :
    (search_documents question docs maxDocs =
      search_documents question (docs.take maxDocs) maxDocs) ∧
    (∀ r ∈ search_documents question docs maxDocs,
      ∃ d ∈ docs.take maxDocs, r.filename = d.filename ∧ r.full_content = d.content) ∧
    (∀ r ∈ search_documents question docs maxDocs,
      r.relevant_text ≠ [] ∧ r.relevant_text.length ≤ 3 ∧
      ∀ line ∈ r.relevant_text,
        20 < (pyStrip line).length ∧
        ∃ tok ∈ splitWS (pyLower question), isSubstr tok (pyLower line) = true) ∧
    (search_documents question docs maxDocs).Pairwise
      (fun r1 r2 => r2.match_score ≤ r1.match_score) := by
  refine ⟨?_, ?_, ?_, ?_⟩
  · simp only [search_documents]
    by_cases h0 : docs.isEmpty
    · have hd : docs = [] := List.isEmpty_iff.mp h0
      subst hd
      simp
    · rw [if_neg h0]
      by_cases h1 : (docs.take maxDocs).isEmpty
      · rw [if_pos h1]
        have htake : docs.take maxDocs = [] := List.isEmpty_iff.mp h1
        rw [htake]
        rfl
      · rw [if_neg h1, List.take_take, min_self]
  · intro r hr
    obtain ⟨d, hd, h1, h2, _⟩ := search_documents_mem question docs maxDocs r hr
    exact ⟨d, hd, h1, h2⟩
  · intro r hr
    obtain ⟨d, hd, _, _, hne, hlen, hlines⟩ := search_documents_mem question docs maxDocs r hr
    refine ⟨hne, hlen, ?_⟩
    intro line hline
    obtain ⟨para, hpe, hplen, tok, htok, hsub⟩ := hlines line hline
    obtain ⟨htne, htns⟩ := splitWS_tok htok
    constructor
    · rw [hpe, pyStrip_idem]
      exact hplen
    · refine ⟨tok, htok, ?_⟩
      rw [hpe, pyLower_pyStrip]
      exact isSubstr_pyStrip htne htns hsub
  · simp only [search_documents]
    by_cases h0 : docs.isEmpty
    · rw [if_pos h0]; simp
    · rw [if_neg h0]
      exact sortByDesc_pairwise _ _

theorem C5_search_properties_witness :
    (search_documents (str "metro")
        [⟨1, str "a.txt", str "doan van nay du dai va co chua tu metro ben trong no",
          str "Metro", none, none, none⟩] 5).Pairwise
      (fun r1 r2 => r2.match_score ≤ r1.match_score) ∧
    search_documents (str "metro")
        [⟨1, str "a.txt", str "doan van nay du dai va co chua tu metro ben trong no",
          str "Metro", none, none, none⟩] 5 ≠ [] :=
  ⟨(C5_search_properties _ _ _).2.2.2, by decide⟩
